import Mathlib

/-!
dsEeprom: record layout engine over a byte-addressable store

A shallow embedding of `src/dsEeprom.cpp` / `src/dsEeprom.h`.

* The EEPROM is an explicit `Store` value that every operation takes and, when it
  writes, returns.
* The private members of the C++ class are the fields of the structure `dsEeprom`.
* Output parameters (`char* len`, `char* data`, `String& data`) are passed in with their
  prior content and returned next to the `int` return value.
* `short` values are `Int`s in `[-32768, 32767]`; the `short status` member is kept as its
  16-bit pattern (a `Nat`), because the code only uses it through `|`, `&` and `~`;
  `unsigned long` is 32 bits wide.  Addresses (`int dataIndex`) are unbounded `Int`s: signed
  overflow in address arithmetic is undefined behaviour in C++ and is not modelled.
* Debug logging (`#ifdef DEBUG` blocks, `Logger`) has no effect on the store or on the
  manager and is left out.
-/

/-- A byte (`uint8_t`, `unsigned char`, or the bit pattern of a `char`). -/
abbrev Byte := Fin 256

/-- Modelled from the spec: the storage collaborator (`EEPROM` of the platform library, which
is not part of the repository).  The spec gives its contract as `read(offset) -> byte`,
`write(offset, byte) -> void`; it is taken as an ideal byte-addressable memory, a total map
from addresses to bytes. -/
abbrev Store := Int → Byte

namespace EEPROM

/-- Modelled from the spec: `EEPROM.read(address)`, the byte held at `address`. -/
def read (s : Store) (address : Int) : Byte := s address

/-- Modelled from the spec: `EEPROM.write(address, value)`, which replaces the byte at
`address` and nothing else. -/
def write (s : Store) (address : Int) (value : Byte) : Store :=
  fun a => if a = address then value else s a

end EEPROM

/-- Modelled from the spec: the text type `String` of the platform library, as the sequence of
its bytes (`length()` is the list length, `c_str()[i]` is the `i`-th byte, and the terminating
NUL is what `getD i 0` gives at `i = length()`). -/
abbrev ArduinoString := List Byte

/-- The C `isspace` of the "C" locale: space, `\t`, `\n`, `\v`, `\f`, `\r`. -/
def isspace (c : Byte) : Bool := c.val = 32 || (9 ≤ c.val && c.val ≤ 13)

/-- Modelled from the spec: `String::trim()` of the platform library, "text is trimmed of
leading/trailing whitespace". -/
def ArduinoString.trim (data : ArduinoString) : ArduinoString :=
  ((data.dropWhile isspace).reverse.dropWhile isspace).reverse

/-- The counted loop `for (int i = 0; i < n; ++i) body(i)`: runs `body 0`, `body 1`, ...,
`body (n-1)` in this order on the loop state. -/
def forUpTo {σ : Type} : Nat → (Nat → σ → σ) → σ → σ
  | 0, _, st => st
  | n + 1, body, st => body n (forUpTo n body st)

/-! ## Constants of `dsEeprom.h` -/

def LOGLEVEL_QUIET : Int := 0
def LOGLEVEL_DEFAULT : Int := 0
def LOGLEVEL_INFO : Int := 0

def EEPROM_MAGIC_BYTE : Byte := 0x7e
def EEPROM_LEADING_LENGTH : Int := 2
def EEPROM_MAXLEN_MAGIC : Int := 1
def EEPROM_MAXLEN_CRC32 : Int := 4
def EEPROM_MAXLEN_BOOLEAN : Int := 1

def EEPROM_HEADER_BEGIN : Int := 0
def EEPROM_POS_MAGIC : Int := 0
def EEPROM_POS_CRC32 : Int := EEPROM_POS_MAGIC + EEPROM_MAXLEN_MAGIC
def EEPROM_HEADER_END : Int := EEPROM_POS_CRC32 + EEPROM_MAXLEN_CRC32 + EEPROM_LEADING_LENGTH
def EEPROM_STD_DATA_BEGIN : Int := EEPROM_HEADER_END

def EE_STATUS_OK_AND_READY : Nat := 0
def EE_STATUS_MODIFIED : Nat := 1
def EE_STATUS_COMMITED : Nat := 2
def EE_STATUS_INVALID_CRC : Nat := 4
def EE_STATUS_INVALID_MAGIC : Nat := 8
def EE_STATUS_INVALID_SIZE : Nat := 16

/-! ## Machine integers -/

/-- The byte that holds a C++ `bool`: `true` is 1, `false` is 0. -/
def boolByte (b : Bool) : Byte := if b then 1 else 0


/-- Conversion of an integer to `short` (16-bit two's complement). -/
def toShort (x : Int) : Int := (x + 32768) % 65536 - 32768

/-- Conversion of an integer to `unsigned int` (32 bits wide on the ESP8266, the platform
whose `EEPROM.begin(size)` the code calls). -/
def toUnsignedInt (x : Int) : Int := x % 4294967296

/-- The value of a `short` whose 16-bit pattern is `bits`. -/
def shortValue (bits : Nat) : Int :=
  if bits % 65536 < 32768 then (bits % 65536 : Nat) else (bits % 65536 : Nat) - 65536

/-- The two bytes of a `short` in memory order (little-endian), what `(char*) &len` points
to. -/
def shortBytes (len : Int) : Byte × Byte :=
  (⟨(len % 65536).toNat % 256, Nat.mod_lt _ (by decide)⟩,
   ⟨(len % 65536).toNat / 256 % 256, Nat.mod_lt _ (by decide)⟩)

/-- The `short` that two bytes in memory order hold. -/
def bytesToShort (len : Byte × Byte) : Int :=
  shortValue (len.1.val + 256 * len.2.val)

/-- The four bytes of a 32-bit `unsigned long` in memory order (little-endian), what
`(char*) &this->crc32Old` points to. -/
def ulongBytes (v : Nat) : List Byte :=
  [⟨v % 256, Nat.mod_lt _ (by decide)⟩,
   ⟨v / 256 % 256, Nat.mod_lt _ (by decide)⟩,
   ⟨v / 65536 % 256, Nat.mod_lt _ (by decide)⟩,
   ⟨v / 16777216 % 256, Nat.mod_lt _ (by decide)⟩]

/-- The operator `~` on a 32-bit `unsigned long`. -/
def not32 (x : Nat) : Nat := (x % 4294967296) ^^^ 0xFFFFFFFF

/-! ## CRC lookup table -/

def crc_table : List Nat :=
  [0x00000000, 0x1db71064, 0x3b6e20c8, 0x26d930ac,
   0x76dc4190, 0x6b6b51f4, 0x4db26158, 0x5005713c,
   0xedb88320, 0xf00f9344, 0xd6d6a3e8, 0xcb61b38c,
   0x9b64c2b0, 0x86d3d2d4, 0xa00ae278, 0xbdbdf21c]

/-- The private members of the class `dsEeprom`. -/
structure dsEeprom where
  logLevel : Int
  status : Nat
  magic : Byte
  blockSize : Int
  reSized : Nat
  crc32Old : Nat
  crc32New : Nat
  deriving DecidableEq, Repr

namespace dsEeprom

/-- The body of the loop of `crc` for one `index`: the three assignments to `crc`, where
`b` is `EEPROM.read(index)`. -/
def crcStep (crc : Nat) (b : Byte) : Nat :=
  let crc1 := crc_table.getD ((crc ^^^ b.val) &&& 0x0f) 0 ^^^ (crc >>> 4)
  let crc2 := crc_table.getD (((crc1 ^^^ b.val) >>> 4) &&& 0x0f) 0 ^^^ (crc1 >>> 4)
  not32 crc2

/-- `unsigned long dsEeprom::crc( int startPos, int length )`: the loop runs for
`index = startPos, ..., startPos + length - 1`, that is `length` times when `length > 0` and
not at all otherwise. -/
def crc (s : Store) (startPos length : Int) : Nat :=
  forUpTo length.toNat (fun k acc => crcStep acc (EEPROM.read s (startPos + k))) 0xFFFFFFFF

/-- The log level that the constructor, `init` and `setLoglevel` store. -/
def clampLogLevel (newLogLevel : Int) : Int :=
  if newLogLevel < LOGLEVEL_QUIET ∨ newLogLevel > LOGLEVEL_INFO then LOGLEVEL_DEFAULT
  else newLogLevel

/-- `dsEeprom::dsEeprom( unsigned int newBlockSize, unsigned char newMagic, int newLogLevel )`.
The members that the constructor does not assign keep the indeterminate values they had,
given here as `self`.  `EEPROM_MAX_SIZE` is the platform's value of the macro (512, 1024 or
4096).  Note that the magic test reads the member `magic`, not `newMagic`. -/
def ctor (EEPROM_MAX_SIZE : Nat) (self : dsEeprom) (newBlockSize : Nat) (newMagic : Byte)
    (newLogLevel : Int) : dsEeprom :=
  let m := { self with status := 0, logLevel := clampLogLevel newLogLevel }
  let m :=
    if newBlockSize ≤ 0 ∨ newBlockSize > EEPROM_MAX_SIZE then
      { m with status := m.status ||| EE_STATUS_INVALID_SIZE }
    else
      { m with blockSize := newBlockSize,
               status := m.status &&& (0xFFFF ^^^ EE_STATUS_INVALID_SIZE) }
  if m.magic = 0x00 then
    { m with status := m.status ||| EE_STATUS_INVALID_MAGIC }
  else
    { m with magic := newMagic }

/-- `int dsEeprom::init( unsigned int newBlockSize, unsigned char newMagic, int newLogLevel )`:
the returned status and the manager after the call. -/
def init (EEPROM_MAX_SIZE : Nat) (self : dsEeprom) (newBlockSize : Nat) (newMagic : Byte)
    (newLogLevel : Int) : Int × dsEeprom :=
  let m := { self with status := EE_STATUS_OK_AND_READY, logLevel := clampLogLevel newLogLevel }
  let m :=
    if newBlockSize ≤ 0 ∨ newBlockSize > EEPROM_MAX_SIZE then
      { m with status := m.status ||| EE_STATUS_INVALID_SIZE }
    else
      { m with blockSize := newBlockSize,
               status := m.status &&& (0xFFFF ^^^ EE_STATUS_INVALID_SIZE) }
  let m :=
    if newMagic = 0x00 then
      { m with status := m.status ||| EE_STATUS_INVALID_MAGIC }
    else
      { m with magic := newMagic }
  (shortValue m.status, m)

/-- `short dsEeprom::getStatus( void )`. -/
def getStatus (self : dsEeprom) : Int := shortValue self.status

/-- `void dsEeprom::wipe( void )`. -/
def wipe (EEPROM_MAX_SIZE : Nat) (self : dsEeprom) (s : Store) : dsEeprom × Store :=
  if self.blockSize > 0 ∧ self.blockSize ≤ EEPROM_MAX_SIZE then
    (self, forUpTo self.blockSize.toNat (fun index st => EEPROM.write st index 0) s)
  else
    ({ self with status := self.status ||| EE_STATUS_INVALID_SIZE }, s)

/-- `int dsEeprom::storeFieldLength( char* len, int dataIndex )`. -/
def storeFieldLength (self : dsEeprom) (s : Store) (len : Byte × Byte) (dataIndex : Int) :
    Int × Store :=
  let retVal : Int := 0
  if self.status &&& EE_STATUS_INVALID_SIZE ≠ 0 then
    (retVal, s)
  else
    let s := EEPROM.write s dataIndex len.1
    let s := EEPROM.write s (dataIndex + 1) len.2
    (retVal, s)

/-- `int dsEeprom::restoreFieldLength( char* len, int dataIndex )`: the return value and the
two bytes `len[0]`, `len[1]` after the call. -/
def restoreFieldLength (self : dsEeprom) (s : Store) (len : Byte × Byte) (dataIndex : Int) :
    Int × (Byte × Byte) :=
  let retVal : Int := 0
  if self.status &&& EE_STATUS_INVALID_SIZE ≠ 0 then
    (retVal, len)
  else
    let len0 := EEPROM.read s dataIndex
    let len1 := EEPROM.read s (dataIndex + 1)
    (retVal, (len0, len1))

/-- `int dsEeprom::storeBoolean( char* data, int dataIndex )`. -/
def storeBoolean (self : dsEeprom) (s : Store) (data : List Byte) (dataIndex : Int) :
    Int × Store :=
  let retVal : Int := 0
  let len : Int := EEPROM_MAXLEN_BOOLEAN
  if self.status &&& EE_STATUS_INVALID_SIZE ≠ 0 then
    (retVal, s)
  else
    let r := storeFieldLength self s (shortBytes len) dataIndex
    if r.1 = 0 then
      (r.1, forUpTo len.toNat
        (fun i st => EEPROM.write st (dataIndex + EEPROM_LEADING_LENGTH + i) (data.getD i 0)) r.2)
    else
      r

/-- `int dsEeprom::restoreBoolean( char *data, int dataIndex )`: the return value and
`data[0]` after the call (`data0` is `data[0]` before it). -/
def restoreBoolean (self : dsEeprom) (s : Store) (data0 : Byte) (dataIndex : Int) :
    Int × Byte :=
  let retVal : Int := 0
  if self.status &&& EE_STATUS_INVALID_SIZE ≠ 0 then
    (retVal, data0)
  else
    let rdValue := EEPROM.read s (dataIndex + EEPROM_LEADING_LENGTH)
    if rdValue = 0 then
      (retVal, 0)
    else if rdValue = 1 then
      (retVal, 1)
    else
      (-1, data0)

/-- `int dsEeprom::storeRaw( const char* data, short len, int dataIndex )`. -/
def storeRaw (self : dsEeprom) (s : Store) (data : List Byte) (len : Int) (dataIndex : Int) :
    Int × Store :=
  let retVal : Int := 0
  if self.status &&& EE_STATUS_INVALID_SIZE ≠ 0 then
    (retVal, s)
  else
    (retVal, forUpTo len.toNat (fun i st => EEPROM.write st (dataIndex + i) (data.getD i 0)) s)

/-- `int dsEeprom::restoreRaw( char* data, int dataIndex, int len, int maxLen)`: the return
value and the caller's buffer after the call.  The loop `for (i = 0; i < len && i < maxLen;
i++)` runs `min len maxLen` times. -/
def restoreRaw (self : dsEeprom) (s : Store) (data : List Byte) (dataIndex len maxLen : Int) :
    Int × List Byte :=
  let retVal : Int := 0
  if self.status &&& EE_STATUS_INVALID_SIZE ≠ 0 then
    (retVal, data)
  else if len > 0 then
    (retVal, forUpTo (min len maxLen).toNat
      (fun i d => d.set i (EEPROM.read s (dataIndex + i))) data)
  else
    (retVal, data)

/-- `int dsEeprom::storeBytes( const char* data, short len, int dataIndex )`. -/
def storeBytes (self : dsEeprom) (s : Store) (data : List Byte) (len : Int) (dataIndex : Int) :
    Int × Store :=
  let retVal : Int := 0
  if self.status &&& EE_STATUS_INVALID_SIZE ≠ 0 then
    (retVal, s)
  else
    let r := storeFieldLength self s (shortBytes len) dataIndex
    if r.1 = 0 then
      (r.1, forUpTo len.toNat
        (fun i st => EEPROM.write st (dataIndex + EEPROM_LEADING_LENGTH + i) (data.getD i 0)) r.2)
    else
      r

/-- `int dsEeprom::restoreBytes( String& data, int dataIndex, int len, int maxLen)`: the
return value and the string `data` after the call.  `data = ""` and the appending loop are
both inside `if( len > 0 )`; the loop `for (i = 0; i < len && i < maxLen; i++)` runs
`min len maxLen` times. -/
def restoreBytes (self : dsEeprom) (s : Store) (data : ArduinoString)
    (dataIndex len maxLen : Int) : Int × ArduinoString :=
  let retVal : Int := 0
  if self.status &&& EE_STATUS_INVALID_SIZE ≠ 0 then
    (retVal, data)
  else if len > 0 then
    (retVal, forUpTo (min len maxLen).toNat
      (fun i d => d ++ [EEPROM.read s (dataIndex + EEPROM_LEADING_LENGTH + i)]) [])
  else
    (retVal, data)

/-- `int dsEeprom::storeString( String data, int maxLen, int dataIndex )`. -/
def storeString (self : dsEeprom) (s : Store) (data : ArduinoString) (maxLen : Int)
    (dataIndex : Int) : Int × Store :=
  let retVal : Int := 0
  if self.status &&& EE_STATUS_INVALID_SIZE ≠ 0 then
    (retVal, s)
  else
    let data := data.trim
    let wrLen : Int :=
      if (data.length : Int) ≤ toUnsignedInt maxLen then toShort data.length
      else toShort maxLen
    storeBytes self s data wrLen dataIndex

/-- `int dsEeprom::restoreString( String& data, int dataIndex, int maxLen )`: the return
value and the string `data` after the call. -/
def restoreString (self : dsEeprom) (s : Store) (data : ArduinoString)
    (dataIndex maxLen : Int) : Int × ArduinoString :=
  let retVal : Int := 0
  let len : Int := 0
  if self.status &&& EE_STATUS_INVALID_SIZE ≠ 0 then
    (retVal, data)
  else
    let r := restoreFieldLength self s (shortBytes len) dataIndex
    if r.1 = 0 then
      restoreBytes self s data dataIndex (bytesToShort r.2) maxLen
    else
      (r.1, data)

/-- `bool dsEeprom::isValid()`: the return value and the manager after the call. -/
def isValid (self : dsEeprom) (s : Store) : Bool × dsEeprom :=
  if self.magic = 0 ∨ EEPROM.read s EEPROM_POS_MAGIC ≠ self.magic then
    (false, self)
  else
    (true, { self with magic := EEPROM.read s EEPROM_POS_MAGIC })

/-- `bool dsEeprom::validate()`: the return value, the manager and the store after the
call. -/
def validate (EEPROM_MAX_SIZE : Nat) (self : dsEeprom) (s : Store) :
    Bool × dsEeprom × Store :=
  let retVal : Bool := true
  if self.blockSize > 0 ∧ self.blockSize ≤ EEPROM_MAX_SIZE then
    let s := EEPROM.write s EEPROM_POS_MAGIC self.magic
    let m := { self with crc32Old := crc s EEPROM_STD_DATA_BEGIN self.blockSize }
    let m := { m with crc32New := m.crc32Old }
    let r := storeRaw m s (ulongBytes m.crc32Old) EEPROM_MAXLEN_CRC32 EEPROM_POS_CRC32
    (retVal, m, r.2)
  else
    (retVal, { self with status := self.status ||| EE_STATUS_INVALID_SIZE }, s)

/-- `void dsEeprom::setBlocksize( unsigned int newSize )`. -/
def setBlocksize (EEPROM_MAX_SIZE : Nat) (self : dsEeprom) (newSize : Nat) : dsEeprom :=
  if newSize > 0 ∧ newSize ≤ EEPROM_MAX_SIZE then
    { self with blockSize := newSize }
  else
    { self with status := self.status ||| EE_STATUS_INVALID_SIZE }

/-- `unsigned int dsEeprom::getBlocksize( void )`. -/
def getBlocksize (self : dsEeprom) : Int := toUnsignedInt self.blockSize

/-- `void dsEeprom::setMagic( short newMagic )`: the assignment converts the `short` to
`unsigned char`. -/
def setMagic (self : dsEeprom) (newMagic : Int) : dsEeprom :=
  if newMagic ≠ 0x00 then
    { self with magic := ⟨(newMagic % 256).toNat, by omega⟩ }
  else
    self

/-- `unsigned char dsEeprom::getMagic( void )`. -/
def getMagic (self : dsEeprom) : Byte := self.magic

/-- `void dsEeprom::setLoglevel( short newValue )`. -/
def setLoglevel (self : dsEeprom) (newValue : Int) : dsEeprom :=
  { self with logLevel := clampLogLevel newValue }

/-- `short dsEeprom::getLoglevel( void )`. -/
def getLoglevel (self : dsEeprom) : Int := self.logLevel

/-- `unsigned char dsEeprom::version2Magic( void )`. -/
def version2Magic (_self : dsEeprom) : Byte := EEPROM_MAGIC_BYTE

end dsEeprom

/-! ## The checksum in the words of the specification -/

/-- The bytes of the range `[startPos, startPos + length)` of the store, in order (none when
`length <= 0`). -/
def rangeBytes (s : Store) (startPos length : Int) : List Byte :=
  (List.range length.toNat).map (fun (k : Nat) => EEPROM.read s (startPos + (k : Int)))

/-- The per-byte update in the words of the specification:
`acc = table[(acc ^ byte) & 0xF] ^ (acc >> 4)` applied twice, using the same byte both times,
then `acc = ~acc`. -/
def specStep (acc : Nat) (byte : Byte) : Nat :=
  let acc1 := crc_table.getD ((acc ^^^ byte.val) &&& 0xF) 0 ^^^ (acc >>> 4)
  let acc2 := crc_table.getD ((acc1 ^^^ byte.val) &&& 0xF) 0 ^^^ (acc1 >>> 4)
  not32 acc2

/-- The checksum in the words of the specification: the fold of `specStep` over the bytes of
the range, starting from the all-ones accumulator. -/
def crcSpec (s : Store) (startPos length : Int) : Nat :=
  (rangeBytes s startPos length).foldl specStep 0xFFFFFFFF

/-- The per-byte update with the second table index taken from the next nibble:
`acc = table[(acc ^ byte) & 0xF] ^ (acc >> 4)`, then
`acc = table[((acc ^ byte) >> 4) & 0xF] ^ (acc >> 4)` with the same byte, then `acc = ~acc`. -/
def nibbleStep (acc : Nat) (byte : Byte) : Nat :=
  let acc1 := crc_table.getD ((acc ^^^ byte.val) &&& 0xF) 0 ^^^ (acc >>> 4)
  let acc2 := crc_table.getD (((acc1 ^^^ byte.val) >>> 4) &&& 0xF) 0 ^^^ (acc1 >>> 4)
  not32 acc2

/-- The fold of `nibbleStep` over the bytes of the range, starting from the all-ones
accumulator. -/
def crcFold (s : Store) (startPos length : Int) : Nat :=
  (rangeBytes s startPos length).foldl nibbleStep 0xFFFFFFFF

/-- One bit step of the reflected CRC-32 with polynomial 0xEDB88320:
`c := (c >> 1) xor (0xEDB88320 if c is odd else 0)`. -/
def polyStep (c : Nat) : Nat := (c >>> 1) ^^^ (if c % 2 = 1 then 0xEDB88320 else 0)

/-! ## Single-bit changes of the checksum range: auxiliary definitions -/

/-- The byte `b` with its bit `i` (0 = least significant, `i < 8`) flipped. -/
def flipBit (b : Byte) (i : Nat) : Byte :=
  ⟨(b.val ^^^ 2 ^ i) % 256, Nat.mod_lt _ (by decide)⟩

/-- The two table assignments of the loop body of `crc` (`dsEeprom.crcStep` before its final
`~`), as a function of the accumulator and the byte. -/
def crcLin (c b : Nat) : Nat :=
  let c1 := crc_table.getD ((c ^^^ b) &&& 0x0f) 0 ^^^ (c >>> 4)
  crc_table.getD (((c1 ^^^ b) >>> 4) &&& 0x0f) 0 ^^^ (c1 >>> 4)

def sigTab0 : List Nat := [0, 5, 3, 6, 4, 1, 7, 2, 5, 0, 6, 3, 1, 4, 2, 7]

def sigTab2 : List Nat := [0, 2, 9, 11, 12, 14, 5, 7, 3, 1, 10, 8, 15, 13, 6, 4]

def sigTab4 : List Nat := [0, 9, 1, 8, 5, 12, 4, 13, 11, 2, 10, 3, 14, 7, 15, 6]

/-- A 4-bit linear signature of a 32-bit accumulator difference, built from its nibbles 0, 2, 4
and 6.  One further byte of the range maps the signature through `sigTab4`, which is a
permutation of 0..15 fixing 0, so a difference with non-zero signature never dies out. -/
def crcSig (x : Nat) : Nat :=
  sigTab0.getD (x &&& 15) 0 ^^^ sigTab2.getD ((x >>> 8) &&& 15) 0
    ^^^ sigTab4.getD ((x >>> 16) &&& 15) 0 ^^^ ((x >>> 24) &&& 15)

/-! ## Sequences of calls on a manager -/

/-- A call that can change the manager after its construction.  The store argument of `wipe`,
`validate` and `isValid` is the content of the EEPROM at the time of the call; it is arbitrary,
which covers every field operation made between two calls (the field operations change the
store only, never a member of the manager). -/
inductive MgrOp where
  | init (newBlockSize : Nat) (newMagic : Byte) (newLogLevel : Int)
  | setBlocksize (newSize : Nat)
  | setMagic (newMagic : Int)
  | wipe (s : Store)
  | validate (s : Store)
  | isValid (s : Store)

/-- The manager after one call. -/
def MgrOp.apply (EEPROM_MAX_SIZE : Nat) (m : dsEeprom) : MgrOp → dsEeprom
  | MgrOp.init newBlockSize newMagic newLogLevel =>
      (dsEeprom.init EEPROM_MAX_SIZE m newBlockSize newMagic newLogLevel).2
  | MgrOp.setBlocksize newSize => dsEeprom.setBlocksize EEPROM_MAX_SIZE m newSize
  | MgrOp.setMagic newMagic => dsEeprom.setMagic m newMagic
  | MgrOp.wipe s => (dsEeprom.wipe EEPROM_MAX_SIZE m s).1
  | MgrOp.validate s => (dsEeprom.validate EEPROM_MAX_SIZE m s).2.1
  | MgrOp.isValid s => (dsEeprom.isValid m s).2

/-- The manager after a sequence of calls, made in the order of the list. -/
def runOps (EEPROM_MAX_SIZE : Nat) (m : dsEeprom) (ops : List MgrOp) : dsEeprom :=
  ops.foldl (MgrOp.apply EEPROM_MAX_SIZE) m

/-- The status holds no bit other than InvalidSize and InvalidMagic, and if InvalidSize is clear
the block size is in bounds. -/
def statusInv (EEPROM_MAX_SIZE : Nat) (m : dsEeprom) : Prop :=
  (m.status = 0 ∨ m.status = 8 ∨ m.status = 16 ∨ m.status = 24) ∧
  (m.status &&& EE_STATUS_INVALID_SIZE = 0 →
    0 < m.blockSize ∧ m.blockSize ≤ EEPROM_MAX_SIZE)

/-! ## Concrete inputs used to evaluate the model -/

/-- A store whose bytes are all zero. -/
def zeroStore : Store := fun _ => 0

/-- The manager as `init(64, 0x7e, quiet)` leaves it: no status flag set. -/
def readyMgr : dsEeprom :=
  { logLevel := 0, status := 0, magic := 0x7e, blockSize := 64, reSized := 0,
    crc32Old := 0, crc32New := 0 }

/-! ## The store: reads after writes -/

theorem EEPROM.read_write_same (s : Store) (a : Int) (v : Byte) :
    EEPROM.read (EEPROM.write s a v) a = v := by
  simp [EEPROM.read, EEPROM.write]

theorem EEPROM.read_write_ne (s : Store) (a b : Int) (v : Byte) (h : b ≠ a) :
    EEPROM.read (EEPROM.write s a v) b = EEPROM.read s b := by
  simp [EEPROM.read, EEPROM.write, h]

theorem forUpTo_zero {σ : Type} (body : Nat → σ → σ) (st : σ) :
    forUpTo 0 body st = st := rfl

theorem forUpTo_succ {σ : Type} (n : Nat) (body : Nat → σ → σ) (st : σ) :
    forUpTo (n + 1) body st = body n (forUpTo n body st) := rfl

/-- A loop that writes `data[i]` at `base + i` for `i < n` leaves every address outside
`[base, base + n)` as it was. -/
theorem writeLoop_outside (data : List Byte) (base : Int) (s : Store) (n : Nat) (a : Int)
    (h : a < base ∨ base + n ≤ a) :
    forUpTo n (fun i st => EEPROM.write st (base + i) (data.getD i 0)) s a = s a := by
  induction n with
  | zero => rfl
  | succ k ih =>
    rw [forUpTo_succ]
    have hne : a ≠ base + (k : Int) := by push_cast at h; omega
    have hk : a < base ∨ base + (k : Int) ≤ a := by push_cast at h; omega
    simp only [EEPROM.write, hne, if_false]
    exact ih hk

/-- A loop that writes `data[i]` at `base + i` for `i < n` leaves `data[i]` at `base + i`. -/
theorem writeLoop_inside (data : List Byte) (base : Int) (s : Store) (n i : Nat) (h : i < n) :
    forUpTo n (fun i st => EEPROM.write st (base + i) (data.getD i 0)) s (base + i)
      = data.getD i 0 := by
  induction n with
  | zero => omega
  | succ k ih =>
    rw [forUpTo_succ]
    by_cases hik : i = k
    · subst hik
      simp [EEPROM.write]
    · have hne : base + (i : Int) ≠ base + (k : Int) := by omega
      simp only [EEPROM.write, hne, if_false]
      exact ih (by omega)

/-- The appending loop of `restoreBytes` collects the bytes at `base`, `base + 1`, ... -/
theorem appendLoop_eq (s : Store) (base : Int) (n : Nat) :
    forUpTo n (fun i d => d ++ [EEPROM.read s (base + i)]) ([] : ArduinoString)
      = (List.range n).map (fun (i : Nat) => s (base + (i : Int))) := by
  induction n with
  | zero => rfl
  | succ k ih =>
    rw [forUpTo_succ, ih, List.range_succ, List.map_append]
    rfl

theorem range_map_getD_take (data : List Byte) (n : Nat) (hn : n ≤ data.length) :
    (List.range n).map (fun i => data.getD i 0) = data.take n := by
  apply List.ext_getElem
  · simp [hn]
  · intro i h1 h2
    have hi : i < data.length := by
      simp at h1; omega
    simp [List.getD_eq_getElem?_getD, List.getElem?_eq_getElem hi]

theorem bytesToShort_shortBytes (len : Int) (h0 : -32768 ≤ len) (h1 : len ≤ 32767) :
    bytesToShort (shortBytes len) = len := by
  simp only [bytesToShort, shortBytes, shortValue]
  have e : ((len % 65536).toNat % 256 + 256 * ((len % 65536).toNat / 256 % 256))
      = (len % 65536).toNat := by omega
  rw [e]
  split <;> omega

/-! ## Length-prefixed fields: what `storeBytes` leaves in the store -/

theorem dsEeprom.storeBytes_eq (self : dsEeprom) (s : Store) (data : List Byte)
    (len off : Int) (hst : self.status &&& EE_STATUS_INVALID_SIZE = 0) :
    dsEeprom.storeBytes self s data len off
      = (0, forUpTo len.toNat
          (fun i st => EEPROM.write st (off + EEPROM_LEADING_LENGTH + i) (data.getD i 0))
          (EEPROM.write (EEPROM.write s off (shortBytes len).1) (off + 1) (shortBytes len).2)) := by
  simp [dsEeprom.storeBytes, dsEeprom.storeFieldLength, hst]

theorem dsEeprom.storeBytes_read_len0 (self : dsEeprom) (s : Store) (data : List Byte)
    (len off : Int) (hst : self.status &&& EE_STATUS_INVALID_SIZE = 0) :
    EEPROM.read (dsEeprom.storeBytes self s data len off).2 off = (shortBytes len).1 := by
  rw [dsEeprom.storeBytes_eq self s data len off hst]
  simp only [EEPROM.read]
  rw [writeLoop_outside data (off + EEPROM_LEADING_LENGTH) _ _ off
    (by left; simp [EEPROM_LEADING_LENGTH])]
  simp [EEPROM.write]

theorem dsEeprom.storeBytes_read_len1 (self : dsEeprom) (s : Store) (data : List Byte)
    (len off : Int) (hst : self.status &&& EE_STATUS_INVALID_SIZE = 0) :
    EEPROM.read (dsEeprom.storeBytes self s data len off).2 (off + 1) = (shortBytes len).2 := by
  rw [dsEeprom.storeBytes_eq self s data len off hst]
  simp only [EEPROM.read]
  rw [writeLoop_outside data (off + EEPROM_LEADING_LENGTH) _ _ (off + 1)
    (by left; simp [EEPROM_LEADING_LENGTH])]
  simp [EEPROM.write]

theorem dsEeprom.storeBytes_read_payload (self : dsEeprom) (s : Store) (data : List Byte)
    (len off : Int) (hst : self.status &&& EE_STATUS_INVALID_SIZE = 0) (i : Nat)
    (hi : i < len.toNat) :
    EEPROM.read (dsEeprom.storeBytes self s data len off).2 (off + EEPROM_LEADING_LENGTH + i)
      = data.getD i 0 := by
  rw [dsEeprom.storeBytes_eq self s data len off hst]
  simp only [EEPROM.read]
  exact writeLoop_inside data (off + EEPROM_LEADING_LENGTH) _ _ i hi

theorem dsEeprom.storeBytes_frame (self : dsEeprom) (s : Store) (data : List Byte)
    (len off : Int) (hst : self.status &&& EE_STATUS_INVALID_SIZE = 0) (a : Int)
    (ha : a < off ∨ off + EEPROM_LEADING_LENGTH + len.toNat ≤ a) :
    (dsEeprom.storeBytes self s data len off).2 a = s a := by
  rw [dsEeprom.storeBytes_eq self s data len off hst]
  simp only
  have h2 : EEPROM_LEADING_LENGTH = 2 := rfl
  rw [writeLoop_outside data (off + EEPROM_LEADING_LENGTH) _ _ a (by omega)]
  have h0 : a ≠ off := by omega
  have h1 : a ≠ off + 1 := by omega
  simp [EEPROM.write, h0, h1]

/-- What `restoreBytes` delivers from a field written by `storeBytes` with `len > 0`: the
first `len` bytes of the buffer. -/
theorem dsEeprom.restoreBytes_storeBytes_take (self : dsEeprom) (s : Store) (data : List Byte)
    (prior : ArduinoString) (len off maxLen : Int)
    (hst : self.status &&& EE_STATUS_INVALID_SIZE = 0)
    (hpos : 0 < len) (hlen : len ≤ maxLen) (hd : len.toNat ≤ data.length) :
    dsEeprom.restoreBytes self (dsEeprom.storeBytes self s data len off).2 prior off
      len maxLen = (0, data.take len.toNat) := by
  have hp : len > 0 := hpos
  simp only [dsEeprom.restoreBytes, hst, hp, min_eq_left hlen, if_true, ne_eq,
    not_true_eq_false, if_false]
  rw [appendLoop_eq]
  congr 1
  rw [← range_map_getD_take data len.toNat hd]
  apply List.map_congr_left
  intro i hi
  exact dsEeprom.storeBytes_read_payload self s data len off hst i (List.mem_range.mp hi)

/-! ## C1: round trip of a length-prefixed byte buffer -/

/-- C1, the claim as stated fails at `L = 0`: with the empty buffer stored at offset 0 and an
output string that holds one byte before the call, `restoreBytes(0, 0, 0)` does not yield the
(empty) data, because `data = ""` is only executed when `len > 0`. -/
theorem restoreBytes_zero_length_not_data :
    readyMgr.status &&& EE_STATUS_INVALID_SIZE = 0 ∧
    ((([] : List Byte).length : Int) ≤ 0) ∧
    (dsEeprom.restoreBytes readyMgr
        (dsEeprom.storeBytes readyMgr zeroStore [] (([] : List Byte).length : Int) 0).2
        [65] 0 (([] : List Byte).length : Int) 0).2 ≠ ([] : List Byte) := by
  refine ⟨by decide, by decide, ?_⟩
  simp [dsEeprom.restoreBytes]

/-- C1 (amended): on a manager whose InvalidSize flag is clear, for a buffer `data` of length
`L` with `0 <= L <= maxLen` and `L <= 32767`, `storeBytes(data, L, off)` returns 0; afterwards
`restoreFieldLength(off)` returns 0 and yields exactly `L`, and `restoreBytes(off, L, maxLen)`
returns 0 and yields exactly `data` when `L >= 1`, while for `L = 0` it leaves the output
string with its prior content. -/
theorem storeBytes_restore_roundtrip (self : dsEeprom) (s : Store) (data : List Byte)
    (prior : ArduinoString) (len0 : Byte × Byte) (off maxLen : Int)
    (hst : self.status &&& EE_STATUS_INVALID_SIZE = 0)
    (hlen : (data.length : Int) ≤ maxLen) (hshort : (data.length : Int) ≤ 32767) :
    (dsEeprom.storeBytes self s data data.length off).1 = 0 ∧
    (dsEeprom.restoreFieldLength self
        (dsEeprom.storeBytes self s data data.length off).2 len0 off).1 = 0 ∧
    bytesToShort (dsEeprom.restoreFieldLength self
        (dsEeprom.storeBytes self s data data.length off).2 len0 off).2 = data.length ∧
    dsEeprom.restoreBytes self (dsEeprom.storeBytes self s data data.length off).2 prior off
        data.length maxLen = (0, if data.length = 0 then prior else data) := by
  refine ⟨?_, ?_, ?_, ?_⟩
  · rw [dsEeprom.storeBytes_eq self s data _ off hst]
  · simp [dsEeprom.restoreFieldLength, hst]
  · have e : (dsEeprom.restoreFieldLength self
        (dsEeprom.storeBytes self s data data.length off).2 len0 off).2
        = shortBytes data.length := by
      simp only [dsEeprom.restoreFieldLength, hst, ne_eq, not_true_eq_false, if_false]
      rw [dsEeprom.storeBytes_read_len0 self s data _ off hst,
        dsEeprom.storeBytes_read_len1 self s data _ off hst]
    rw [e]
    exact bytesToShort_shortBytes _ (by omega) hshort
  · by_cases h0 : data.length = 0
    · simp [dsEeprom.restoreBytes, hst, h0]
    · rw [if_neg h0]
      have h := dsEeprom.restoreBytes_storeBytes_take self s data prior data.length off maxLen
        hst (by omega) hlen (by simp)
      simpa using h

/-- C1 (amended), at a concrete input: the three bytes 1, 2, 3 stored at offset 7 and read
back with `maxLen = 8` into a string that held one byte. -/
theorem storeBytes_restore_roundtrip_witness :
    readyMgr.status &&& EE_STATUS_INVALID_SIZE = 0 ∧
    dsEeprom.restoreBytes readyMgr
        (dsEeprom.storeBytes readyMgr zeroStore [1, 2, 3] 3 7).2 [65] 7 3 8 = (0, [1, 2, 3]) :=
  ⟨by decide,
   (storeBytes_restore_roundtrip readyMgr zeroStore [1, 2, 3] [65] (0, 0) 7 8
      (by decide) (by decide) (by decide)).2.2.2⟩

/-! ## C2, C3: booleans -/

theorem dsEeprom.storeBoolean_eq (self : dsEeprom) (s : Store) (data : List Byte) (off : Int)
    (hst : self.status &&& EE_STATUS_INVALID_SIZE = 0) :
    dsEeprom.storeBoolean self s data off
      = (0, EEPROM.write
          (EEPROM.write (EEPROM.write s off (shortBytes 1).1) (off + 1) (shortBytes 1).2)
          (off + 2) (data.getD 0 0)) := by
  simp [dsEeprom.storeBoolean, dsEeprom.storeFieldLength, hst, EEPROM_MAXLEN_BOOLEAN,
    EEPROM_LEADING_LENGTH, forUpTo]

/-- C2: on a manager whose InvalidSize flag is clear, `storeBoolean(b, off)` returns 0 and a
following `restoreBoolean(off)` returns success (0) and yields `b`, for every offset, every
store, every boolean and every prior content of the output byte. -/
theorem storeBoolean_restoreBoolean (self : dsEeprom) (s : Store) (b : Bool) (data0 : Byte)
    (off : Int) (hst : self.status &&& EE_STATUS_INVALID_SIZE = 0) :
    (dsEeprom.storeBoolean self s [boolByte b] off).1 = 0 ∧
    dsEeprom.restoreBoolean self (dsEeprom.storeBoolean self s [boolByte b] off).2 data0 off
      = (0, boolByte b) := by
  rw [dsEeprom.storeBoolean_eq self s _ off hst]
  refine ⟨rfl, ?_⟩
  cases b <;>
    simp [dsEeprom.restoreBoolean, hst, EEPROM.read, EEPROM.write, EEPROM_LEADING_LENGTH,
      boolByte]

/-- C2 at a concrete input: `true` stored at offset 7 of the zero store. -/
theorem storeBoolean_restoreBoolean_witness :
    readyMgr.status &&& EE_STATUS_INVALID_SIZE = 0 ∧
    dsEeprom.restoreBoolean readyMgr
        (dsEeprom.storeBoolean readyMgr zeroStore [boolByte true] 7).2 0 7
      = (0, boolByte true) :=
  ⟨by decide, (storeBoolean_restoreBoolean readyMgr zeroStore true 0 7 (by decide)).2⟩

/-- C3: on a manager whose InvalidSize flag is clear, `restoreBoolean(off)` returns a non-zero
result if and only if the byte stored at `off + 2` is neither 0 nor 1; a stored 2 gives the
error (-1, output byte untouched), a stored 0 gives success and `false`, a stored 1 gives
success and `true`. -/
theorem restoreBoolean_error_iff (self : dsEeprom) (s : Store) (data0 : Byte) (off : Int)
    (hst : self.status &&& EE_STATUS_INVALID_SIZE = 0) :
    ((dsEeprom.restoreBoolean self s data0 off).1 ≠ 0 ↔
        (EEPROM.read s (off + 2) ≠ 0 ∧ EEPROM.read s (off + 2) ≠ 1)) ∧
    (EEPROM.read s (off + 2) = 2 → dsEeprom.restoreBoolean self s data0 off = (-1, data0)) ∧
    (EEPROM.read s (off + 2) = 0 →
        dsEeprom.restoreBoolean self s data0 off = (0, boolByte false)) ∧
    (EEPROM.read s (off + 2) = 1 →
        dsEeprom.restoreBoolean self s data0 off = (0, boolByte true)) := by
  simp only [dsEeprom.restoreBoolean, hst, EEPROM_LEADING_LENGTH, ne_eq, not_true_eq_false,
    if_false, boolByte]
  refine ⟨?_, ?_, ?_, ?_⟩
  · by_cases h0 : EEPROM.read s (off + 2) = 0
    · simp [h0]
    · by_cases h1 : EEPROM.read s (off + 2) = 1
      · simp [h0, h1]
      · simp [h0, h1]
  · intro h; simp [h]
  · intro h; simp [h]
  · intro h; simp [h]

/-- C3 at a concrete input: the raw byte 2 written at the payload position 7 + 2 makes
`restoreBoolean(7)` return -1. -/
theorem restoreBoolean_error_iff_witness :
    readyMgr.status &&& EE_STATUS_INVALID_SIZE = 0 ∧
    dsEeprom.restoreBoolean readyMgr (EEPROM.write zeroStore 9 2) 0 7 = (-1, 0) :=
  ⟨by decide,
   (restoreBoolean_error_iff readyMgr (EEPROM.write zeroStore 9 2) 0 7 (by decide)).2.1
     (by decide)⟩

/-! ## C4, C5: text fields -/

theorem dsEeprom.storeString_eq (self : dsEeprom) (s : Store) (text : ArduinoString)
    (maxLen off : Int) (hst : self.status &&& EE_STATUS_INVALID_SIZE = 0)
    (h0 : 0 ≤ maxLen) (h1 : maxLen ≤ 32767) :
    dsEeprom.storeString self s text maxLen off
      = dsEeprom.storeBytes self s text.trim (min (text.trim.length : Int) maxLen) off := by
  have hu : toUnsignedInt maxLen = maxLen := by
    unfold toUnsignedInt; omega
  simp only [dsEeprom.storeString, hst, ne_eq, not_true_eq_false, if_false, hu]
  by_cases hc : (text.trim.length : Int) ≤ maxLen
  · have e : toShort (text.trim.length : Int) = text.trim.length := by
      unfold toShort; omega
    rw [if_pos hc, min_eq_left hc, e]
  · have e : toShort maxLen = maxLen := by
      unfold toShort; omega
    rw [if_neg hc, min_eq_right (by omega), e]

theorem dsEeprom.restoreFieldLength_storeBytes (self : dsEeprom) (s : Store)
    (data : List Byte) (len0 : Byte × Byte) (len off : Int)
    (hst : self.status &&& EE_STATUS_INVALID_SIZE = 0) :
    dsEeprom.restoreFieldLength self (dsEeprom.storeBytes self s data len off).2 len0 off
      = (0, shortBytes len) := by
  simp only [dsEeprom.restoreFieldLength, hst, ne_eq, not_true_eq_false, if_false]
  rw [dsEeprom.storeBytes_read_len0 self s data _ off hst,
    dsEeprom.storeBytes_read_len1 self s data _ off hst]

/-- C4: on a manager whose InvalidSize flag is clear and for `0 <= maxLen <= 32767`,
`storeString(text, maxLen, off)` returns 0, writes a length prefix that reads back as
`min(length(trim(text)), maxLen)`, writes exactly that many payload bytes at `off + 2`, namely
the leading bytes of `trim(text)`, and changes no byte outside the prefix and that payload;
so when the trimmed text is longer than `maxLen` the length read back is `maxLen`. -/
theorem storeString_prefix_and_payload (self : dsEeprom) (s : Store) (text : ArduinoString)
    (len0 : Byte × Byte) (maxLen off : Int)
    (hst : self.status &&& EE_STATUS_INVALID_SIZE = 0)
    (h0 : 0 ≤ maxLen) (h1 : maxLen ≤ 32767) :
    (dsEeprom.storeString self s text maxLen off).1 = 0 ∧
    bytesToShort (dsEeprom.restoreFieldLength self
        (dsEeprom.storeString self s text maxLen off).2 len0 off).2
      = min (text.trim.length : Int) maxLen ∧
    (List.range (min (text.trim.length : Int) maxLen).toNat).map
        (fun (i : Nat) => EEPROM.read (dsEeprom.storeString self s text maxLen off).2
          (off + 2 + (i : Int)))
      = text.trim.take (min (text.trim.length : Int) maxLen).toNat ∧
    (∀ a : Int, a < off ∨ off + 2 + min (text.trim.length : Int) maxLen ≤ a →
        (dsEeprom.storeString self s text maxLen off).2 a = s a) ∧
    (maxLen < (text.trim.length : Int) →
      bytesToShort (dsEeprom.restoreFieldLength self
        (dsEeprom.storeString self s text maxLen off).2 len0 off).2 = maxLen) := by
  rw [dsEeprom.storeString_eq self s text maxLen off hst h0 h1]
  have hlen : bytesToShort (dsEeprom.restoreFieldLength self
        (dsEeprom.storeBytes self s text.trim (min (text.trim.length : Int) maxLen) off).2
        len0 off).2 = min (text.trim.length : Int) maxLen := by
    rw [dsEeprom.restoreFieldLength_storeBytes self s _ len0 _ off hst]
    exact bytesToShort_shortBytes _ (by omega) (by omega)
  refine ⟨?_, hlen, ?_, ?_, ?_⟩
  · rw [dsEeprom.storeBytes_eq self s _ _ off hst]
  · rw [← range_map_getD_take text.trim _ (by omega)]
    apply List.map_congr_left
    intro i hi
    exact dsEeprom.storeBytes_read_payload self s text.trim _ off hst i (List.mem_range.mp hi)
  · intro a ha
    apply dsEeprom.storeBytes_frame self s text.trim _ off hst a
    have h2 : EEPROM_LEADING_LENGTH = 2 := rfl
    omega
  · intro hlt
    rw [hlen]
    exact min_eq_right (by omega)

/-- C4 at a concrete input: the text " abc " stored with `maxLen = 2` at offset 7 leaves the
length 2 in the prefix. -/
theorem storeString_prefix_and_payload_witness :
    readyMgr.status &&& EE_STATUS_INVALID_SIZE = 0 ∧
    bytesToShort (dsEeprom.restoreFieldLength readyMgr
        (dsEeprom.storeString readyMgr zeroStore [32, 97, 98, 99, 32] 2 7).2 (0, 0) 7).2 = 2 :=
  ⟨by decide,
   (storeString_prefix_and_payload readyMgr zeroStore [32, 97, 98, 99, 32] (0, 0) 2 7
      (by decide) (by decide) (by decide)).2.2.2.2 (by decide)⟩

/-- C5, the claim as stated fails when the trimmed text is empty: after storing the text " "
with `maxLen = 5` at offset 7, `restoreString(7, 5)` into a string that holds one byte leaves
that byte there instead of yielding the empty text. -/
theorem restoreString_empty_text_not_restored :
    readyMgr.status &&& EE_STATUS_INVALID_SIZE = 0 ∧
    ArduinoString.trim [32] = [] ∧
    (dsEeprom.restoreString readyMgr
        (dsEeprom.storeString readyMgr zeroStore [32] 5 7).2 [65] 7 5).2
      ≠ (ArduinoString.trim [32]).take 5 := by
  refine ⟨by decide, by decide, ?_⟩
  have h := dsEeprom.storeString_eq readyMgr zeroStore [32] 5 7 (by decide) (by decide)
    (by decide)
  have ht : ArduinoString.trim [32] = [] := by decide
  rw [h, ht]
  have e := dsEeprom.restoreFieldLength_storeBytes readyMgr zeroStore [] (shortBytes 0)
    (min ((([] : List Byte).length : Nat) : Int) 5) 7 (by decide)
  simp only [dsEeprom.restoreString]
  rw [e]
  simp [dsEeprom.restoreBytes, bytesToShort, shortBytes, shortValue]

/-- C5 (amended): on a manager whose InvalidSize flag is clear and for `0 <= maxLen <= 32767`,
`storeString(text, maxLen, off)` followed by `restoreString(off, maxLen)` returns success and
yields exactly `trim(text)` truncated to its first `maxLen` bytes whenever that is at least one
byte; when it is empty (empty trimmed text, or `maxLen = 0`) the call returns success and
leaves the output string with its prior content. -/
theorem storeString_restoreString (self : dsEeprom) (s : Store) (text prior : ArduinoString)
    (maxLen off : Int) (hst : self.status &&& EE_STATUS_INVALID_SIZE = 0)
    (h0 : 0 ≤ maxLen) (h1 : maxLen ≤ 32767) :
    dsEeprom.restoreString self (dsEeprom.storeString self s text maxLen off).2 prior off maxLen
      = (0, if text.trim.take maxLen.toNat = [] then prior else text.trim.take maxLen.toNat) := by
  rw [dsEeprom.storeString_eq self s text maxLen off hst h0 h1]
  simp only [dsEeprom.restoreString, hst, ne_eq, not_true_eq_false, if_false]
  rw [dsEeprom.restoreFieldLength_storeBytes self s _ _ _ off hst]
  have hb : bytesToShort (shortBytes (min (text.trim.length : Int) maxLen))
      = min (text.trim.length : Int) maxLen :=
    bytesToShort_shortBytes _ (by omega) (by omega)
  simp only [if_true, hb]
  by_cases hz : min (text.trim.length : Int) maxLen = 0
  · have hnil : text.trim.take maxLen.toNat = [] := by
      rw [List.take_eq_nil_iff]
      rcases min_choice (text.trim.length : Int) maxLen with h | h
      · right
        have : (text.trim.length : Int) = 0 := by rw [← h]; exact hz
        exact List.length_eq_zero.mp (by exact_mod_cast this)
      · left
        have : maxLen = 0 := by rw [← h]; exact hz
        simp [this]
    rw [hz, hnil]
    simp [dsEeprom.restoreBytes, hst]
  · have hpos : 0 < min (text.trim.length : Int) maxLen := by omega
    rw [dsEeprom.restoreBytes_storeBytes_take self s text.trim prior _ off maxLen hst hpos
      (min_le_right _ _) (by omega)]
    have htake : text.trim.take (min (text.trim.length : Int) maxLen).toNat
        = text.trim.take maxLen.toNat := by
      rcases le_total (text.trim.length : Int) maxLen with h | h
      · rw [min_eq_left h]
        simp only [Int.toNat_ofNat]
        rw [List.take_of_length_le (le_refl _), List.take_of_length_le (by omega)]
      · rw [min_eq_right h]
    rw [htake]
    have hne : text.trim.take maxLen.toNat ≠ [] := by
      rw [← htake]
      intro hnil
      have hl := congrArg List.length hnil
      simp only [List.length_take, List.length_nil] at hl
      omega
    rw [if_neg hne]

/-- C5 (amended) at a concrete input: the text " abc " stored with `maxLen = 2` at offset 7 and
read back into a string that held one byte. -/
theorem storeString_restoreString_witness :
    readyMgr.status &&& EE_STATUS_INVALID_SIZE = 0 ∧
    dsEeprom.restoreString readyMgr
        (dsEeprom.storeString readyMgr zeroStore [32, 97, 98, 99, 32] 2 7).2 [65] 7 2
      = (0, [97, 98]) :=
  ⟨by decide,
   storeString_restoreString readyMgr zeroStore [32, 97, 98, 99, 32] [65] 2 7
     (by decide) (by decide) (by decide)⟩

/-! ## The checksum reads only its byte range -/

theorem dsEeprom.crc_congr (s s' : Store) (startPos length : Int)
    (h : ∀ a : Int, startPos ≤ a → a < startPos + length → s a = s' a) :
    dsEeprom.crc s startPos length = dsEeprom.crc s' startPos length := by
  unfold dsEeprom.crc
  have key : ∀ n : Nat, n ≤ length.toNat →
      forUpTo n (fun k acc => dsEeprom.crcStep acc (EEPROM.read s (startPos + k))) 0xFFFFFFFF
        = forUpTo n (fun k acc => dsEeprom.crcStep acc (EEPROM.read s' (startPos + k)))
            0xFFFFFFFF := by
    intro n
    induction n with
    | zero => intro _; rw [forUpTo_zero, forUpTo_zero]
    | succ k ih =>
      intro hk
      rw [forUpTo_succ, forUpTo_succ, ih (by omega)]
      have e : s (startPos + (k : Int)) = s' (startPos + (k : Int)) :=
        h _ (by omega) (by omega)
      simp only [EEPROM.read, e]
  exact key _ (le_refl _)

theorem invalidSize_set (st : Nat) : (st ||| EE_STATUS_INVALID_SIZE) &&& EE_STATUS_INVALID_SIZE ≠ 0 := by
  have h4 : Nat.testBit 16 4 = true := by decide
  have hb : ((st ||| 16) &&& 16).testBit 4 = true := by
    simp [Nat.testBit_and, Nat.testBit_or, h4]
  intro h
  simp only [EE_STATUS_INVALID_SIZE] at h
  rw [h] at hb
  simp at hb

/-! ## `validate` -/

/-- The store that `validate` leaves when the block size is in bounds and the InvalidSize flag
is clear: the magic at offset 0, then the four bytes of the checksum at offsets 1..4. -/
theorem dsEeprom.validate_eq (MAX : Nat) (self : dsEeprom) (s : Store)
    (hb : self.blockSize > 0 ∧ self.blockSize ≤ MAX)
    (hst : self.status &&& EE_STATUS_INVALID_SIZE = 0) :
    dsEeprom.validate MAX self s
      = (true,
         { self with
            crc32Old := dsEeprom.crc (EEPROM.write s EEPROM_POS_MAGIC self.magic)
              EEPROM_STD_DATA_BEGIN self.blockSize,
            crc32New := dsEeprom.crc (EEPROM.write s EEPROM_POS_MAGIC self.magic)
              EEPROM_STD_DATA_BEGIN self.blockSize },
         forUpTo 4
           (fun i st => EEPROM.write st (EEPROM_POS_CRC32 + i)
             ((ulongBytes (dsEeprom.crc (EEPROM.write s EEPROM_POS_MAGIC self.magic)
                EEPROM_STD_DATA_BEGIN self.blockSize)).getD i 0))
           (EEPROM.write s EEPROM_POS_MAGIC self.magic)) := by
  have h4 : EEPROM_MAXLEN_CRC32.toNat = 4 := rfl
  simp only [dsEeprom.validate, hb, and_self, if_true, dsEeprom.storeRaw, hst, ne_eq,
    not_true_eq_false, if_false, h4]

/-- The store that `validate` leaves when the block size is in bounds but the InvalidSize flag
is set: `storeRaw` is gated, only the magic is written. -/
theorem dsEeprom.validate_eq_gated (MAX : Nat) (self : dsEeprom) (s : Store)
    (hb : self.blockSize > 0 ∧ self.blockSize ≤ MAX)
    (hst : self.status &&& EE_STATUS_INVALID_SIZE ≠ 0) :
    dsEeprom.validate MAX self s
      = (true,
         { self with
            crc32Old := dsEeprom.crc (EEPROM.write s EEPROM_POS_MAGIC self.magic)
              EEPROM_STD_DATA_BEGIN self.blockSize,
            crc32New := dsEeprom.crc (EEPROM.write s EEPROM_POS_MAGIC self.magic)
              EEPROM_STD_DATA_BEGIN self.blockSize },
         EEPROM.write s EEPROM_POS_MAGIC self.magic) := by
  simp only [dsEeprom.validate, hb, and_self, if_true, dsEeprom.storeRaw, hst, ne_eq,
    not_false_eq_true]

theorem dsEeprom.validate_eq_outOfBounds (MAX : Nat) (self : dsEeprom) (s : Store)
    (hb : ¬ (self.blockSize > 0 ∧ self.blockSize ≤ MAX)) :
    dsEeprom.validate MAX self s
      = (true, { self with status := self.status ||| EE_STATUS_INVALID_SIZE }, s) := by
  simp only [dsEeprom.validate, hb, if_false]

/-- Writing the magic and the four checksum bytes leaves every address from 5 on as it was. -/
theorem headerWrite_outside (s : Store) (mg : Byte) (bytes : List Byte) (a : Int)
    (ha : 5 ≤ a ∨ a < 0) :
    forUpTo 4 (fun i st => EEPROM.write st (EEPROM_POS_CRC32 + i) (bytes.getD i 0))
      (EEPROM.write s EEPROM_POS_MAGIC mg) a = s a := by
  have h1 : EEPROM_POS_CRC32 = 1 := rfl
  have h0 : EEPROM_POS_MAGIC = 0 := rfl
  rw [writeLoop_outside bytes EEPROM_POS_CRC32 _ 4 a (by omega)]
  have hne : a ≠ EEPROM_POS_MAGIC := by omega
  simp [EEPROM.write, hne]

theorem headerWrite_magic (s : Store) (mg : Byte) (bytes : List Byte) :
    forUpTo 4 (fun i st => EEPROM.write st (EEPROM_POS_CRC32 + i) (bytes.getD i 0))
      (EEPROM.write s EEPROM_POS_MAGIC mg) 0 = mg := by
  have h1 : EEPROM_POS_CRC32 = 1 := rfl
  rw [writeLoop_outside bytes EEPROM_POS_CRC32 _ 4 0 (by omega)]
  simp [EEPROM.write, EEPROM_POS_MAGIC]

theorem headerWrite_checksum (s : Store) (mg : Byte) (bytes : List Byte) (i : Nat)
    (hi : i < 4) :
    forUpTo 4 (fun i st => EEPROM.write st (EEPROM_POS_CRC32 + i) (bytes.getD i 0))
      (EEPROM.write s EEPROM_POS_MAGIC mg) (1 + (i : Int)) = bytes.getD i 0 :=
  writeLoop_inside bytes EEPROM_POS_CRC32 _ 4 i hi

/-- The checksum that `validate` computes is not changed by what `validate` writes. -/
theorem crc_headerWrite (s : Store) (mg : Byte) (bytes : List Byte) (length : Int) :
    dsEeprom.crc
      (forUpTo 4 (fun i st => EEPROM.write st (EEPROM_POS_CRC32 + i) (bytes.getD i 0))
        (EEPROM.write s EEPROM_POS_MAGIC mg)) EEPROM_STD_DATA_BEGIN length
      = dsEeprom.crc s EEPROM_STD_DATA_BEGIN length := by
  apply dsEeprom.crc_congr
  intro a h1 _
  have h7 : EEPROM_STD_DATA_BEGIN = 7 := rfl
  exact headerWrite_outside s mg bytes a (by omega)

theorem crc_magicWrite (s : Store) (mg : Byte) (length : Int) :
    dsEeprom.crc (EEPROM.write s EEPROM_POS_MAGIC mg) EEPROM_STD_DATA_BEGIN length
      = dsEeprom.crc s EEPROM_STD_DATA_BEGIN length := by
  apply dsEeprom.crc_congr
  intro a h1 _
  have h7 : EEPROM_STD_DATA_BEGIN = 7 := rfl
  have hne : a ≠ EEPROM_POS_MAGIC := by
    have h0 : EEPROM_POS_MAGIC = 0 := rfl
    omega
  simp [EEPROM.write, hne]

theorem dsEeprom.init_valid (MAX : Nat) (prior : dsEeprom) (blockSize : Nat) (magic : Byte)
    (logLevel : Int) (hpos : 0 < blockSize) (hmax : blockSize ≤ MAX) (hmagic : magic ≠ 0) :
    dsEeprom.init MAX prior blockSize magic logLevel
      = (0, { prior with status := 0, logLevel := dsEeprom.clampLogLevel logLevel,
                         blockSize := blockSize, magic := magic }) := by
  have h1 : ¬ (blockSize ≤ 0 ∨ blockSize > MAX) := by omega
  unfold dsEeprom.init
  simp only [if_neg h1, if_neg hmagic, EE_STATUS_OK_AND_READY]
  rfl

theorem headerWrite_idem (s : Store) (mg : Byte) (bytes : List Byte) :
    forUpTo 4 (fun i st => EEPROM.write st (EEPROM_POS_CRC32 + i) (bytes.getD i 0))
      (EEPROM.write
        (forUpTo 4 (fun i st => EEPROM.write st (EEPROM_POS_CRC32 + i) (bytes.getD i 0))
          (EEPROM.write s EEPROM_POS_MAGIC mg)) EEPROM_POS_MAGIC mg)
      = forUpTo 4 (fun i st => EEPROM.write st (EEPROM_POS_CRC32 + i) (bytes.getD i 0))
          (EEPROM.write s EEPROM_POS_MAGIC mg) := by
  funext a
  by_cases h0 : a = 0
  · subst h0
    rw [headerWrite_magic, headerWrite_magic]
  · by_cases hin : 1 ≤ a ∧ a < 5
    · obtain ⟨i, hi⟩ : ∃ i : Nat, a = 1 + (i : Int) := ⟨(a - 1).toNat, by omega⟩
      subst hi
      rw [headerWrite_checksum _ _ _ i (by omega), headerWrite_checksum _ _ _ i (by omega)]
    · rw [headerWrite_outside _ _ _ a (by omega), headerWrite_outside _ _ _ a (by omega)]

/-- With the block size in bounds and the InvalidSize flag clear, a second `validate` changes
nothing. -/
theorem dsEeprom.validate_idem (MAX : Nat) (self : dsEeprom) (s : Store)
    (hb : self.blockSize > 0 ∧ self.blockSize ≤ MAX)
    (hst : self.status &&& EE_STATUS_INVALID_SIZE = 0) :
    dsEeprom.validate MAX (dsEeprom.validate MAX self s).2.1 (dsEeprom.validate MAX self s).2.2
      = dsEeprom.validate MAX self s := by
  have h1 := dsEeprom.validate_eq MAX self s hb hst
  have hb1 : (dsEeprom.validate MAX self s).2.1.blockSize > 0 ∧
      (dsEeprom.validate MAX self s).2.1.blockSize ≤ MAX := by
    rw [h1]; exact hb
  have hst1 : (dsEeprom.validate MAX self s).2.1.status &&& EE_STATUS_INVALID_SIZE = 0 := by
    rw [h1]; exact hst
  rw [dsEeprom.validate_eq MAX (dsEeprom.validate MAX self s).2.1
    (dsEeprom.validate MAX self s).2.2 hb1 hst1]
  rw [h1]
  simp only [crc_magicWrite, crc_headerWrite, headerWrite_idem]

/-! ## C6: `isValid` -/

/-- C6: for every manager state and every store, `isValid()` returns true if and only if the
configured magic is non-zero and the byte at store offset 0 equals it; it returns false when
the configured magic is 0, when the stored byte is 0x00, and when the stored byte differs from
the configured magic.  The manager after the call (magic, blockSize, status and all other
members) is the manager before the call; the function only reads the store. -/
theorem isValid_iff_magic_matches (self : dsEeprom) (s : Store) :
    ((dsEeprom.isValid self s).1 = true ↔
        (self.magic ≠ 0 ∧ EEPROM.read s 0 = self.magic)) ∧
    (self.magic = 0 → (dsEeprom.isValid self s).1 = false) ∧
    (EEPROM.read s 0 = 0 → (dsEeprom.isValid self s).1 = false) ∧
    (EEPROM.read s 0 ≠ self.magic → (dsEeprom.isValid self s).1 = false) ∧
    (dsEeprom.isValid self s).2 = self := by
  have h0 : EEPROM_POS_MAGIC = 0 := rfl
  unfold dsEeprom.isValid
  rw [h0]
  by_cases hm : self.magic = 0
  · simp [hm]
  · by_cases hr : EEPROM.read s 0 = self.magic
    · have hr0 : EEPROM.read s 0 ≠ 0 := by rw [hr]; exact hm
      simp [hm, hr]
    · simp [hm, hr]

/-! ## C7: `validate` after `init` -/

/-- C7: for every store and every manager state produced by `init(blockSize, magic, logLevel)`
with `0 < blockSize <= EEPROM_MAX_SIZE` and `magic != 0`: `validate()` returns true; afterwards
the byte at offset 0 equals `magic`, `isValid()` returns true, the four bytes at offsets 1..4
are the raw bytes of the checksum obtained by recomputing `crc` on the resulting store over the
range `validate()` used (`crc(EEPROM_STD_DATA_BEGIN, blockSize)`), and that value equals both
`crc32Old` and `crc32New`. -/
theorem validate_after_init (MAX : Nat) (prior : dsEeprom) (s : Store) (blockSize : Nat)
    (magic : Byte) (logLevel : Int)
    (hpos : 0 < blockSize) (hmax : blockSize ≤ MAX) (hmagic : magic ≠ 0) :
    (dsEeprom.validate MAX (dsEeprom.init MAX prior blockSize magic logLevel).2 s).1 = true ∧
    EEPROM.read
      (dsEeprom.validate MAX (dsEeprom.init MAX prior blockSize magic logLevel).2 s).2.2 0
      = magic ∧
    (dsEeprom.isValid
      (dsEeprom.validate MAX (dsEeprom.init MAX prior blockSize magic logLevel).2 s).2.1
      (dsEeprom.validate MAX (dsEeprom.init MAX prior blockSize magic logLevel).2 s).2.2).1
      = true ∧
    (List.range 4).map (fun (i : Nat) => EEPROM.read
      (dsEeprom.validate MAX (dsEeprom.init MAX prior blockSize magic logLevel).2 s).2.2
      (1 + (i : Int)))
      = ulongBytes (dsEeprom.crc
          (dsEeprom.validate MAX (dsEeprom.init MAX prior blockSize magic logLevel).2 s).2.2
          EEPROM_STD_DATA_BEGIN blockSize) ∧
    dsEeprom.crc
        (dsEeprom.validate MAX (dsEeprom.init MAX prior blockSize magic logLevel).2 s).2.2
        EEPROM_STD_DATA_BEGIN blockSize
      = (dsEeprom.validate MAX (dsEeprom.init MAX prior blockSize magic logLevel).2 s).2.1.crc32Old ∧
    dsEeprom.crc
        (dsEeprom.validate MAX (dsEeprom.init MAX prior blockSize magic logLevel).2 s).2.2
        EEPROM_STD_DATA_BEGIN blockSize
      = (dsEeprom.validate MAX (dsEeprom.init MAX prior blockSize magic logLevel).2 s).2.1.crc32New := by
  rw [dsEeprom.init_valid MAX prior blockSize magic logLevel hpos hmax hmagic]
  rw [dsEeprom.validate_eq MAX _ s (by constructor <;> simp <;> omega) (by simp)]
  have hmg : EEPROM.read (forUpTo 4
      (fun i st => EEPROM.write st (EEPROM_POS_CRC32 + i)
        ((ulongBytes (dsEeprom.crc (EEPROM.write s EEPROM_POS_MAGIC magic)
          EEPROM_STD_DATA_BEGIN blockSize)).getD i 0))
      (EEPROM.write s EEPROM_POS_MAGIC magic)) 0 = magic :=
    headerWrite_magic s magic _
  have hcs := fun (i : Nat) (hi : i < 4) => headerWrite_checksum s magic
    (ulongBytes (dsEeprom.crc (EEPROM.write s EEPROM_POS_MAGIC magic)
      EEPROM_STD_DATA_BEGIN blockSize)) i hi
  have hcrc := (crc_headerWrite s magic
    (ulongBytes (dsEeprom.crc (EEPROM.write s EEPROM_POS_MAGIC magic)
      EEPROM_STD_DATA_BEGIN blockSize)) blockSize).trans (crc_magicWrite s magic blockSize).symm
  refine ⟨rfl, hmg, ?_, ?_, hcrc, hcrc⟩
  · have hc : ¬ (magic = 0 ∨ EEPROM.read (forUpTo 4
        (fun i st => EEPROM.write st (EEPROM_POS_CRC32 + i)
          ((ulongBytes (dsEeprom.crc (EEPROM.write s EEPROM_POS_MAGIC magic)
            EEPROM_STD_DATA_BEGIN blockSize)).getD i 0))
        (EEPROM.write s EEPROM_POS_MAGIC magic)) EEPROM_POS_MAGIC ≠ magic) := by
      have hmg2 : EEPROM.read (forUpTo 4
          (fun i st => EEPROM.write st (EEPROM_POS_CRC32 + i)
            ((ulongBytes (dsEeprom.crc (EEPROM.write s EEPROM_POS_MAGIC magic)
              EEPROM_STD_DATA_BEGIN blockSize)).getD i 0))
          (EEPROM.write s EEPROM_POS_MAGIC magic)) EEPROM_POS_MAGIC = magic := hmg
      rw [hmg2]
      simp [hmagic]
    simp only [dsEeprom.isValid]
    rw [if_neg hc]
  · simp only
    rw [hcrc]
    have e0 := hcs 0 (by decide)
    have e1 := hcs 1 (by decide)
    have e2 := hcs 2 (by decide)
    have e3 := hcs 3 (by decide)
    simp only [List.range, List.range.loop, List.map, EEPROM.read]
    rw [e0, e1, e2, e3]
    rfl

/-- C7 at a concrete input: `init(64, 0x7e, quiet)` then `validate()` on the zero store puts
0x7e at offset 0. -/
theorem validate_after_init_witness :
    (0 < 64 ∧ 64 ≤ 4096 ∧ (0x7e : Byte) ≠ 0) ∧
    EEPROM.read
      (dsEeprom.validate 4096 (dsEeprom.init 4096 readyMgr 64 0x7e 0).2 zeroStore).2.2 0
      = 0x7e :=
  ⟨by decide,
   (validate_after_init 4096 readyMgr zeroStore 64 0x7e 0 (by decide) (by decide)
      (by decide)).2.1⟩

/-! ## C8: the range of the checksum -/

set_option maxRecDepth 100000 in
/-- C8, the claim as stated fails: `EEPROM_STD_DATA_BEGIN` is 7, not 5, and for the manager of
`init(64, 0x7e, quiet)` on the zero store the four bytes that `validate()` leaves at offsets
1..4 (and `crc32Old`) are not the checksum `crc(5, 64 - 5)` of the bytes at offsets [5, 64). -/
theorem validate_checksum_not_crc_from_5 :
    EEPROM_STD_DATA_BEGIN ≠ 5 ∧
    (readyMgr.blockSize = 64 ∧ readyMgr.status &&& EE_STATUS_INVALID_SIZE = 0) ∧
    (List.range 4).map (fun (i : Nat) =>
        EEPROM.read (dsEeprom.validate 4096 readyMgr zeroStore).2.2 (1 + (i : Int)))
      ≠ ulongBytes (dsEeprom.crc (dsEeprom.validate 4096 readyMgr zeroStore).2.2 5 (64 - 5)) ∧
    (dsEeprom.validate 4096 readyMgr zeroStore).2.1.crc32Old
      ≠ dsEeprom.crc (dsEeprom.validate 4096 readyMgr zeroStore).2.2 5 (64 - 5) := by
  decide

/-- C8 (amended): the data region starts at offset 7 (`EEPROM_STD_DATA_BEGIN`: after the
1-byte magic, the 4-byte checksum and two further header bytes), and for every manager with
`0 < blockSize <= EEPROM_MAX_SIZE` and the InvalidSize flag clear, `validate()` stores at
offsets [1,5) the raw bytes of the crc32 of a byte range of the store that starts at offset 7
and covers at least the bytes at offsets [7, blockSize). -/
theorem validate_checksum_range_from_data_begin (MAX : Nat) (self : dsEeprom) (s : Store)
    (hb : self.blockSize > 0 ∧ self.blockSize ≤ MAX)
    (hst : self.status &&& EE_STATUS_INVALID_SIZE = 0) :
    EEPROM_STD_DATA_BEGIN = 7 ∧
    ∃ length : Int, self.blockSize - EEPROM_STD_DATA_BEGIN ≤ length ∧
      (List.range 4).map (fun (i : Nat) =>
          EEPROM.read (dsEeprom.validate MAX self s).2.2 (1 + (i : Int)))
        = ulongBytes (dsEeprom.crc (dsEeprom.validate MAX self s).2.2
            EEPROM_STD_DATA_BEGIN length) := by
  refine ⟨rfl, self.blockSize, ?_, ?_⟩
  · have h7 : EEPROM_STD_DATA_BEGIN = 7 := rfl
    omega
  · rw [dsEeprom.validate_eq MAX self s hb hst]
    have hcs := fun (i : Nat) (hi : i < 4) => headerWrite_checksum s self.magic
      (ulongBytes (dsEeprom.crc (EEPROM.write s EEPROM_POS_MAGIC self.magic)
        EEPROM_STD_DATA_BEGIN self.blockSize)) i hi
    have hcrc := (crc_headerWrite s self.magic
      (ulongBytes (dsEeprom.crc (EEPROM.write s EEPROM_POS_MAGIC self.magic)
        EEPROM_STD_DATA_BEGIN self.blockSize)) self.blockSize).trans
      (crc_magicWrite s self.magic self.blockSize).symm
    simp only
    rw [hcrc]
    have e0 := hcs 0 (by decide)
    have e1 := hcs 1 (by decide)
    have e2 := hcs 2 (by decide)
    have e3 := hcs 3 (by decide)
    simp only [List.range, List.range.loop, List.map, EEPROM.read]
    rw [e0, e1, e2, e3]
    rfl

/-- C8 (amended) at a concrete input: the manager of `init(64, 0x7e, quiet)` on the zero
store. -/
theorem validate_checksum_range_from_data_begin_witness :
    (readyMgr.blockSize > 0 ∧ readyMgr.blockSize ≤ (4096 : Nat)) ∧
    ∃ length : Int, readyMgr.blockSize - EEPROM_STD_DATA_BEGIN ≤ length ∧
      (List.range 4).map (fun (i : Nat) =>
          EEPROM.read (dsEeprom.validate 4096 readyMgr zeroStore).2.2 (1 + (i : Int)))
        = ulongBytes (dsEeprom.crc (dsEeprom.validate 4096 readyMgr zeroStore).2.2
            EEPROM_STD_DATA_BEGIN length) :=
  ⟨by decide,
   (validate_checksum_range_from_data_begin 4096 readyMgr zeroStore (by decide)
      (by decide)).2⟩

/-! ## C9: `validate` twice -/

/-- C9: for every store and every manager initialised by `init` with a valid block size and a
non-zero magic, a second `validate()` directly after the first returns the same result and
leaves the same manager state and the same store, so the same checksum stands in bytes 1..4
both times. -/
theorem validate_twice_same (MAX : Nat) (prior : dsEeprom) (s : Store) (blockSize : Nat)
    (magic : Byte) (logLevel : Int)
    (hpos : 0 < blockSize) (hmax : blockSize ≤ MAX) (hmagic : magic ≠ 0) :
    dsEeprom.validate MAX
        (dsEeprom.validate MAX (dsEeprom.init MAX prior blockSize magic logLevel).2 s).2.1
        (dsEeprom.validate MAX (dsEeprom.init MAX prior blockSize magic logLevel).2 s).2.2
      = dsEeprom.validate MAX (dsEeprom.init MAX prior blockSize magic logLevel).2 s ∧
    ∀ i : Nat, i < 4 →
      EEPROM.read (dsEeprom.validate MAX
        (dsEeprom.validate MAX (dsEeprom.init MAX prior blockSize magic logLevel).2 s).2.1
        (dsEeprom.validate MAX (dsEeprom.init MAX prior blockSize magic logLevel).2 s).2.2).2.2
        (1 + (i : Int))
      = EEPROM.read
        (dsEeprom.validate MAX (dsEeprom.init MAX prior blockSize magic logLevel).2 s).2.2
        (1 + (i : Int)) := by
  have hinit := dsEeprom.init_valid MAX prior blockSize magic logLevel hpos hmax hmagic
  have hb : (dsEeprom.init MAX prior blockSize magic logLevel).2.blockSize > 0 ∧
      (dsEeprom.init MAX prior blockSize magic logLevel).2.blockSize ≤ MAX := by
    rw [hinit]; constructor <;> simp <;> omega
  have hst : (dsEeprom.init MAX prior blockSize magic logLevel).2.status
      &&& EE_STATUS_INVALID_SIZE = 0 := by
    rw [hinit]; simp
  have h := dsEeprom.validate_idem MAX _ s hb hst
  refine ⟨h, ?_⟩
  intro i _
  rw [h]

/-- C9 at a concrete input: `init(64, 0x7e, quiet)` and two `validate()` calls on the zero
store. -/
theorem validate_twice_same_witness :
    (0 < 64 ∧ 64 ≤ 4096 ∧ (0x7e : Byte) ≠ 0) ∧
    dsEeprom.validate 4096
        (dsEeprom.validate 4096 (dsEeprom.init 4096 readyMgr 64 0x7e 0).2 zeroStore).2.1
        (dsEeprom.validate 4096 (dsEeprom.init 4096 readyMgr 64 0x7e 0).2 zeroStore).2.2
      = dsEeprom.validate 4096 (dsEeprom.init 4096 readyMgr 64 0x7e 0).2 zeroStore :=
  ⟨by decide,
   (validate_twice_same 4096 readyMgr zeroStore 64 0x7e 0 (by decide) (by decide)
      (by decide)).1⟩

/-! ## C10: what `validate` reports -/

/-- C10, the claim as stated fails: with `blockSize = 0`, which is out of bounds, `validate()`
still returns true. -/
theorem validate_out_of_bounds_returns_true :
    ¬ ((0 : Int) > 0 ∧ (0 : Int) ≤ (4096 : Nat)) ∧
    ({ readyMgr with blockSize := 0 } : dsEeprom).blockSize = 0 ∧
    (dsEeprom.validate 4096 { readyMgr with blockSize := 0 } zeroStore).1 = true := by
  refine ⟨by decide, rfl, ?_⟩
  rw [dsEeprom.validate_eq_outOfBounds 4096 _ zeroStore (by decide)]

/-- C10 (amended): `validate()` returns true for every block size, in bounds or not; when
`blockSize` is out of bounds (not `0 < blockSize <= EEPROM_MAX_SIZE`) it sets the InvalidSize
flag, changes nothing else in the manager and writes nothing to the store. -/
theorem validate_returns_true_and_flags (MAX : Nat) (self : dsEeprom) (s : Store) :
    (dsEeprom.validate MAX self s).1 = true ∧
    (¬ (self.blockSize > 0 ∧ self.blockSize ≤ MAX) →
      (dsEeprom.validate MAX self s).2.1.status &&& EE_STATUS_INVALID_SIZE ≠ 0 ∧
      (dsEeprom.validate MAX self s).2.1
        = { self with status := self.status ||| EE_STATUS_INVALID_SIZE } ∧
      (dsEeprom.validate MAX self s).2.2 = s) := by
  constructor
  · unfold dsEeprom.validate
    split <;> rfl
  · intro hb
    rw [dsEeprom.validate_eq_outOfBounds MAX self s hb]
    exact ⟨invalidSize_set self.status, rfl, rfl⟩

/-- C10 (amended) at a concrete input: `blockSize = 0` on the zero store. -/
theorem validate_returns_true_and_flags_witness :
    ¬ (({ readyMgr with blockSize := 0 } : dsEeprom).blockSize > 0 ∧
       ({ readyMgr with blockSize := 0 } : dsEeprom).blockSize ≤ (4096 : Nat)) ∧
    (dsEeprom.validate 4096 { readyMgr with blockSize := 0 } zeroStore).2.1.status = 16 :=
  ⟨by decide,
   by
     have h := (validate_returns_true_and_flags 4096 { readyMgr with blockSize := 0 }
       zeroStore).2 (by decide)
     rw [h.2.1]
     rfl⟩

/-! ## C11: `wipe` -/

/-- The loop of `wipe` zeroes the addresses `0 .. n-1` and leaves every other address. -/
theorem wipeLoop_apply (s : Store) (n : Nat) (a : Int) :
    forUpTo n (fun index st => EEPROM.write st index 0) s a
      = if 0 ≤ a ∧ a < n then 0 else s a := by
  induction n with
  | zero =>
    have h : ¬ (0 ≤ a ∧ a < ((0 : Nat) : Int)) := by omega
    rw [if_neg h]; rfl
  | succ k ih =>
    rw [forUpTo_succ]
    by_cases hk : a = (k : Int)
    · have h : 0 ≤ a ∧ a < ((k + 1 : Nat) : Int) := by omega
      rw [if_pos h]
      simp [EEPROM.write, hk]
    · simp only [EEPROM.write, hk, if_false]
      rw [ih]
      by_cases h : 0 ≤ a ∧ a < (k : Int)
      · have h2 : 0 ≤ a ∧ a < ((k + 1 : Nat) : Int) := by omega
        rw [if_pos h, if_pos h2]
      · have h2 : ¬ (0 ≤ a ∧ a < ((k + 1 : Nat) : Int)) := by omega
        rw [if_neg h, if_neg h2]

/-- C11: for every store and every manager, if `0 < blockSize <= EEPROM_MAX_SIZE` then after
`wipe()` every byte at an offset in `[0, blockSize)` is zero, every byte at an offset
`>= blockSize` is unchanged, the manager (its status included) is unchanged, and a following
`isValid()` returns false whatever the configured magic is; if `blockSize` is out of bounds,
`wipe()` leaves the store unchanged and sets the InvalidSize flag. -/
theorem wipe_zeroes_block (MAX : Nat) (self : dsEeprom) (s : Store) :
    ((self.blockSize > 0 ∧ self.blockSize ≤ MAX) →
      (∀ a : Int, 0 ≤ a → a < self.blockSize → (dsEeprom.wipe MAX self s).2 a = 0) ∧
      (∀ a : Int, self.blockSize ≤ a → (dsEeprom.wipe MAX self s).2 a = s a) ∧
      (dsEeprom.wipe MAX self s).1.status = self.status ∧
      (dsEeprom.wipe MAX self s).1 = self ∧
      (dsEeprom.isValid (dsEeprom.wipe MAX self s).1 (dsEeprom.wipe MAX self s).2).1 = false) ∧
    (¬ (self.blockSize > 0 ∧ self.blockSize ≤ MAX) →
      (dsEeprom.wipe MAX self s).2 = s ∧
      (dsEeprom.wipe MAX self s).1.status &&& EE_STATUS_INVALID_SIZE ≠ 0 ∧
      (dsEeprom.wipe MAX self s).1
        = { self with status := self.status ||| EE_STATUS_INVALID_SIZE }) := by
  constructor
  · intro hb
    have hw : dsEeprom.wipe MAX self s
        = (self, forUpTo self.blockSize.toNat (fun index st => EEPROM.write st index 0) s) := by
      simp only [dsEeprom.wipe, hb, and_self, if_true]
    rw [hw]
    have h0 : ∀ a : Int, 0 ≤ a → a < self.blockSize →
        forUpTo self.blockSize.toNat (fun index st => EEPROM.write st index 0) s a = 0 := by
      intro a ha0 ha1
      rw [wipeLoop_apply]
      have h : 0 ≤ a ∧ a < (self.blockSize.toNat : Int) := by omega
      rw [if_pos h]
    refine ⟨h0, ?_, rfl, rfl, ?_⟩
    · intro a ha
      simp only
      rw [wipeLoop_apply]
      have h : ¬ (0 ≤ a ∧ a < (self.blockSize.toNat : Int)) := by omega
      rw [if_neg h]
    · simp only [dsEeprom.isValid, EEPROM.read]
      have hz := h0 EEPROM_POS_MAGIC (le_refl _) hb.1
      rw [hz]
      by_cases hm : self.magic = 0
      · simp [hm]
      · have hm2 : (0 : Byte) ≠ self.magic := fun h => hm h.symm
        simp [hm, hm2]
  · intro hb
    have hw : dsEeprom.wipe MAX self s
        = ({ self with status := self.status ||| EE_STATUS_INVALID_SIZE }, s) := by
      simp only [dsEeprom.wipe, hb, if_false]
    rw [hw]
    exact ⟨rfl, invalidSize_set self.status, rfl⟩

/-- C11 at a concrete input: the manager of `init(64, 0x7e, quiet)`; after a magic byte was
written to offset 0, `wipe()` makes `isValid()` false. -/
theorem wipe_zeroes_block_witness :
    (readyMgr.blockSize > 0 ∧ readyMgr.blockSize ≤ (4096 : Nat)) ∧
    (dsEeprom.isValid (dsEeprom.wipe 4096 readyMgr (EEPROM.write zeroStore 0 0x7e)).1
      (dsEeprom.wipe 4096 readyMgr (EEPROM.write zeroStore 0 0x7e)).2).1 = false :=
  ⟨by decide,
   ((wipe_zeroes_block 4096 readyMgr (EEPROM.write zeroStore 0 0x7e)).1 (by decide)).2.2.2.2⟩

/-! ## C12: the status that `init` returns -/

/-- C12: for every prior manager state and all arguments, `init(blockSize, magic, logLevel)`
returns exactly InvalidSize (16) if `blockSize = 0` or `blockSize > EEPROM_MAX_SIZE`, combined
with InvalidMagic (8) if `magic = 0`, and nothing else; the returned value is the stored status
and is the same for every status (every manager state) before the call; `init(64, 0x7e, quiet)`
returns 0.  When the size is invalid the stored blockSize is left unchanged, and when the magic
is 0 the stored magic is left unchanged. -/
theorem init_status (MAX : Nat) (prior : dsEeprom) (blockSize : Nat) (magic : Byte)
    (logLevel : Int) :
    (dsEeprom.init MAX prior blockSize magic logLevel).2.status
      = (if blockSize = 0 ∨ blockSize > MAX then EE_STATUS_INVALID_SIZE else 0)
        ||| (if magic = 0 then EE_STATUS_INVALID_MAGIC else 0) ∧
    (dsEeprom.init MAX prior blockSize magic logLevel).1
      = ((dsEeprom.init MAX prior blockSize magic logLevel).2.status : Int) ∧
    dsEeprom.getStatus (dsEeprom.init MAX prior blockSize magic logLevel).2
      = (dsEeprom.init MAX prior blockSize magic logLevel).1 ∧
    (∀ prior2 : dsEeprom, (dsEeprom.init MAX prior2 blockSize magic logLevel).1
      = (dsEeprom.init MAX prior blockSize magic logLevel).1) ∧
    (dsEeprom.init 4096 prior 64 0x7e LOGLEVEL_QUIET).1 = 0 ∧
    ((blockSize = 0 ∨ blockSize > MAX) →
      (dsEeprom.init MAX prior blockSize magic logLevel).2.blockSize = prior.blockSize) ∧
    (magic = 0 →
      (dsEeprom.init MAX prior blockSize magic logLevel).2.magic = prior.magic) := by
  have key : ∀ p : dsEeprom,
      (dsEeprom.init MAX p blockSize magic logLevel).2.status
        = (if blockSize = 0 ∨ blockSize > MAX then EE_STATUS_INVALID_SIZE else 0)
          ||| (if magic = 0 then EE_STATUS_INVALID_MAGIC else 0) ∧
      (dsEeprom.init MAX p blockSize magic logLevel).1
        = ((dsEeprom.init MAX p blockSize magic logLevel).2.status : Int) := by
    intro p
    by_cases hs : blockSize = 0 ∨ blockSize > MAX
    · have hs2 : blockSize ≤ 0 ∨ blockSize > MAX := by omega
      by_cases hm : magic = 0
      · simp only [dsEeprom.init, if_pos hs, if_pos hs2, if_pos hm]
        exact ⟨by decide, by decide⟩
      · simp only [dsEeprom.init, if_pos hs, if_pos hs2, if_neg hm]
        exact ⟨by decide, by decide⟩
    · have hs2 : ¬ (blockSize ≤ 0 ∨ blockSize > MAX) := by omega
      by_cases hm : magic = 0
      · simp only [dsEeprom.init, if_neg hs, if_neg hs2, if_pos hm]
        exact ⟨by decide, by decide⟩
      · simp only [dsEeprom.init, if_neg hs, if_neg hs2, if_neg hm]
        exact ⟨by decide, by decide⟩
  refine ⟨(key prior).1, (key prior).2, ?_, ?_, ?_, ?_, ?_⟩
  · rfl
  · intro prior2
    rw [(key prior2).2, (key prior).2, (key prior2).1, (key prior).1]
  · rw [dsEeprom.init_valid 4096 prior 64 0x7e LOGLEVEL_QUIET (by decide) (by decide)
      (by decide)]
  · intro hs
    have hs2 : blockSize ≤ 0 ∨ blockSize > MAX := by omega
    by_cases hm : magic = 0
    · simp only [dsEeprom.init, if_pos hs2, if_pos hm]
    · simp only [dsEeprom.init, if_pos hs2, if_neg hm]
  · intro hm
    by_cases hs2 : blockSize ≤ 0 ∨ blockSize > MAX
    · simp only [dsEeprom.init, if_pos hs2, if_pos hm]
    · simp only [dsEeprom.init, if_neg hs2, if_pos hm]

/-- C12 at a concrete input: `init(0, 0, quiet)` returns 24 = InvalidSize | InvalidMagic and
leaves block size and magic as they were. -/
theorem init_status_witness :
    ((0 : Nat) = 0 ∨ (0 : Nat) > 4096) ∧ (0 : Byte) = 0 ∧
    (dsEeprom.init 4096 readyMgr 0 0 0).1 = 24 ∧
    (dsEeprom.init 4096 readyMgr 0 0 0).2.blockSize = 64 ∧
    (dsEeprom.init 4096 readyMgr 0 0 0).2.magic = 0x7e :=
  ⟨by decide, by decide, by decide,
   (init_status 4096 readyMgr 0 0 0).2.2.2.2.2.1 (by decide),
   (init_status 4096 readyMgr 0 0 0).2.2.2.2.2.2 (by decide)⟩

/-! ## C13, C14: the InvalidSize gate of the field operations -/

/-- With the InvalidSize flag set every field write returns 0 and the store it was given. -/
theorem dsEeprom.gated_writes (self : dsEeprom) (s : Store) (len2 : Byte × Byte)
    (data : List Byte) (text : ArduinoString) (len maxLen off : Int)
    (hset : self.status &&& EE_STATUS_INVALID_SIZE ≠ 0) :
    dsEeprom.storeFieldLength self s len2 off = (0, s) ∧
    dsEeprom.storeBoolean self s data off = (0, s) ∧
    dsEeprom.storeRaw self s data len off = (0, s) ∧
    dsEeprom.storeBytes self s data len off = (0, s) ∧
    dsEeprom.storeString self s text maxLen off = (0, s) := by
  refine ⟨?_, ?_, ?_, ?_, ?_⟩
  · simp only [dsEeprom.storeFieldLength, if_pos hset]
  · simp only [dsEeprom.storeBoolean, if_pos hset]
  · simp only [dsEeprom.storeRaw, if_pos hset]
  · simp only [dsEeprom.storeBytes, if_pos hset]
  · simp only [dsEeprom.storeString, if_pos hset]

/-- With the InvalidSize flag set every field read returns 0 and leaves its output as it
was. -/
theorem dsEeprom.gated_reads (self : dsEeprom) (s : Store) (len2 : Byte × Byte) (data0 : Byte)
    (buf : List Byte) (out : ArduinoString) (len maxLen off : Int)
    (hset : self.status &&& EE_STATUS_INVALID_SIZE ≠ 0) :
    dsEeprom.restoreFieldLength self s len2 off = (0, len2) ∧
    dsEeprom.restoreBoolean self s data0 off = (0, data0) ∧
    dsEeprom.restoreRaw self s buf off len maxLen = (0, buf) ∧
    dsEeprom.restoreBytes self s out off len maxLen = (0, out) ∧
    dsEeprom.restoreString self s out off maxLen = (0, out) := by
  refine ⟨?_, ?_, ?_, ?_, ?_⟩
  · simp only [dsEeprom.restoreFieldLength, if_pos hset]
  · simp only [dsEeprom.restoreBoolean, if_pos hset]
  · simp only [dsEeprom.restoreRaw, if_pos hset]
  · simp only [dsEeprom.restoreBytes, if_pos hset]
  · simp only [dsEeprom.restoreString, if_pos hset]

/-- After `init` with an invalid block size the InvalidSize flag is set. -/
theorem dsEeprom.init_invalid_flag (MAX : Nat) (prior : dsEeprom) (blockSize : Nat)
    (magic : Byte) (logLevel : Int) (hbad : blockSize = 0 ∨ blockSize > MAX) :
    (dsEeprom.init MAX prior blockSize magic logLevel).2.status &&& EE_STATUS_INVALID_SIZE
      ≠ 0 := by
  have hs2 : blockSize ≤ 0 ∨ blockSize > MAX := by omega
  by_cases hm : magic = 0
  · simp only [dsEeprom.init, if_pos hs2, if_pos hm]
    decide
  · simp only [dsEeprom.init, if_pos hs2, if_neg hm]
    decide

/-- C13: after `init` with `blockSize = 0` or `blockSize > EEPROM_MAX_SIZE`, and more generally
in every manager state whose InvalidSize flag is set, `storeFieldLength`, `storeBoolean`,
`storeRaw`, `storeBytes` and `storeString` leave the store byte-for-byte unchanged, for all
arguments.  (The restore operations contain no `EEPROM.write`; in the model they do not return
a store at all.) -/
theorem invalid_size_field_ops_leave_store (MAX : Nat) (prior self : dsEeprom)
    (blockSize : Nat) (magic : Byte) (logLevel : Int) (s : Store) (len2 : Byte × Byte)
    (data : List Byte) (text : ArduinoString) (len maxLen off : Int) :
    ((blockSize = 0 ∨ blockSize > MAX) →
      (dsEeprom.storeFieldLength (dsEeprom.init MAX prior blockSize magic logLevel).2
        s len2 off).2 = s ∧
      (dsEeprom.storeBoolean (dsEeprom.init MAX prior blockSize magic logLevel).2
        s data off).2 = s ∧
      (dsEeprom.storeRaw (dsEeprom.init MAX prior blockSize magic logLevel).2
        s data len off).2 = s ∧
      (dsEeprom.storeBytes (dsEeprom.init MAX prior blockSize magic logLevel).2
        s data len off).2 = s ∧
      (dsEeprom.storeString (dsEeprom.init MAX prior blockSize magic logLevel).2
        s text maxLen off).2 = s) ∧
    (self.status &&& EE_STATUS_INVALID_SIZE ≠ 0 →
      (dsEeprom.storeFieldLength self s len2 off).2 = s ∧
      (dsEeprom.storeBoolean self s data off).2 = s ∧
      (dsEeprom.storeRaw self s data len off).2 = s ∧
      (dsEeprom.storeBytes self s data len off).2 = s ∧
      (dsEeprom.storeString self s text maxLen off).2 = s) := by
  constructor
  · intro hbad
    have h := dsEeprom.gated_writes (dsEeprom.init MAX prior blockSize magic logLevel).2
      s len2 data text len maxLen off
      (dsEeprom.init_invalid_flag MAX prior blockSize magic logLevel hbad)
    rw [h.1, h.2.1, h.2.2.1, h.2.2.2.1, h.2.2.2.2]
    exact ⟨rfl, rfl, rfl, rfl, rfl⟩
  · intro hset
    have h := dsEeprom.gated_writes self s len2 data text len maxLen off hset
    rw [h.1, h.2.1, h.2.2.1, h.2.2.2.1, h.2.2.2.2]
    exact ⟨rfl, rfl, rfl, rfl, rfl⟩

/-- C13 at a concrete input: after `init(0, 0x7e, quiet)`, `storeBytes` of three bytes at
offset 7 leaves the zero store as it is. -/
theorem invalid_size_field_ops_leave_store_witness :
    ((0 : Nat) = 0 ∨ (0 : Nat) > 4096) ∧
    (dsEeprom.storeBytes (dsEeprom.init 4096 readyMgr 0 0x7e 0).2 zeroStore [1, 2, 3] 3 7).2
      = zeroStore :=
  ⟨by decide,
   ((invalid_size_field_ops_leave_store 4096 readyMgr readyMgr 0 0x7e 0 zeroStore (0, 0)
      [1, 2, 3] [] 3 0 7).1 (by decide)).2.2.2.1⟩

/-- C14, the claim as stated fails: on a manager whose InvalidSize flag is set (status 16),
`storeFieldLength` and `restoreString` return 0, the success code. -/
theorem invalid_size_ops_return_success :
    ({ readyMgr with status := 16 } : dsEeprom).status &&& EE_STATUS_INVALID_SIZE ≠ 0 ∧
    (dsEeprom.storeFieldLength { readyMgr with status := 16 } zeroStore (1, 0) 7).1 = 0 ∧
    (dsEeprom.restoreString { readyMgr with status := 16 } zeroStore [] 7 8).1 = 0 := by
  have h : ({ readyMgr with status := 16 } : dsEeprom).status &&& EE_STATUS_INVALID_SIZE
      ≠ 0 := by decide
  refine ⟨h, ?_, ?_⟩
  · simp only [dsEeprom.storeFieldLength, if_pos h]
  · simp only [dsEeprom.restoreString, if_pos h]

/-- C14 (amended): on a manager whose InvalidSize flag is set, every field write and read
operation (`storeFieldLength`, `restoreFieldLength`, `storeBoolean`, `restoreBoolean`,
`storeRaw`, `restoreRaw`, `storeBytes`, `restoreBytes`, `storeString`, `restoreString`) returns
0, the same value as the success code, and leaves the store and its output untouched: the gate
is not reported through the return value.  On every manager, in particular one whose
InvalidSize flag is clear, `storeFieldLength` returns 0. -/
theorem invalid_size_ops_return_zero (self : dsEeprom) (s : Store) (len2 : Byte × Byte)
    (data buf : List Byte) (text out : ArduinoString) (data0 : Byte) (len maxLen off : Int) :
    (self.status &&& EE_STATUS_INVALID_SIZE ≠ 0 →
      dsEeprom.storeFieldLength self s len2 off = (0, s) ∧
      dsEeprom.restoreFieldLength self s len2 off = (0, len2) ∧
      dsEeprom.storeBoolean self s data off = (0, s) ∧
      dsEeprom.restoreBoolean self s data0 off = (0, data0) ∧
      dsEeprom.storeRaw self s data len off = (0, s) ∧
      dsEeprom.restoreRaw self s buf off len maxLen = (0, buf) ∧
      dsEeprom.storeBytes self s data len off = (0, s) ∧
      dsEeprom.restoreBytes self s out off len maxLen = (0, out) ∧
      dsEeprom.storeString self s text maxLen off = (0, s) ∧
      dsEeprom.restoreString self s out off maxLen = (0, out)) ∧
    (self.status &&& EE_STATUS_INVALID_SIZE = 0 →
      (dsEeprom.storeFieldLength self s len2 off).1 = 0) := by
  constructor
  · intro hset
    have hw := dsEeprom.gated_writes self s len2 data text len maxLen off hset
    have hr := dsEeprom.gated_reads self s len2 data0 buf out len maxLen off hset
    exact ⟨hw.1, hr.1, hw.2.1, hr.2.1, hw.2.2.1, hr.2.2.1, hw.2.2.2.1, hr.2.2.2.1,
      hw.2.2.2.2, hr.2.2.2.2⟩
  · intro hclear
    simp [dsEeprom.storeFieldLength, hclear]

/-- C14 (amended) at a concrete input: a manager with status 16 and `storeBytes` of three
bytes at offset 7. -/
theorem invalid_size_ops_return_zero_witness :
    ({ readyMgr with status := 16 } : dsEeprom).status &&& EE_STATUS_INVALID_SIZE ≠ 0 ∧
    dsEeprom.storeBytes { readyMgr with status := 16 } zeroStore [1, 2, 3] 3 7
      = (0, zeroStore) :=
  ⟨by decide,
   ((invalid_size_ops_return_zero { readyMgr with status := 16 } zeroStore (0, 0)
      [1, 2, 3] [] [] [] 0 3 0 7).1 (by decide)).2.2.2.2.2.2.1⟩

/-! ## C16: the checksum as a fold over the bytes of the range -/

theorem forUpTo_eq_foldl {σ : Type} (f : Nat → Byte) (step : σ → Byte → σ) (init : σ)
    (n : Nat) :
    forUpTo n (fun k acc => step acc (f k)) init
      = ((List.range n).map f).foldl step init := by
  induction n with
  | zero => rfl
  | succ k ih =>
    rw [forUpTo_succ, ih, List.range_succ, List.map_append, List.foldl_append]
    rfl

/-- C16, the claim as stated fails: on the zero store the checksum of the one byte at offset 0
is not what the fold gives that applies `table[(acc ^ byte) & 0xF] ^ (acc >> 4)` twice. -/
theorem crc_not_spec_fold :
    dsEeprom.crc zeroStore 0 1 ≠ crcSpec zeroStore 0 1 := by
  decide

/-- C16 (amended): for every store, start position and length, `crc(startPos, length)` equals
the 32-bit fold over the bytes of the range, in order, that starts from the all-ones
accumulator 0xFFFFFFFF and for each byte applies `acc = table[(acc ^ byte) & 0xF] ^ (acc >> 4)`,
then `acc = table[((acc ^ byte) >> 4) & 0xF] ^ (acc >> 4)` with that same byte, and then
`acc = ~acc`; for a length of 0 (or less) the result is 0xFFFFFFFF. -/
theorem crc_eq_nibble_fold (s : Store) (startPos length : Int) :
    dsEeprom.crc s startPos length = crcFold s startPos length ∧
    (length ≤ 0 → dsEeprom.crc s startPos length = 0xFFFFFFFF) := by
  constructor
  · unfold dsEeprom.crc crcFold rangeBytes
    exact forUpTo_eq_foldl (fun (k : Nat) => EEPROM.read s (startPos + (k : Int)))
      nibbleStep 0xFFFFFFFF length.toNat
  · intro h
    have h0 : length.toNat = 0 := by omega
    unfold dsEeprom.crc
    rw [h0]
    rfl

/-- C16 (amended) at a concrete input: the empty range at offset 7 of the zero store. -/
theorem crc_eq_nibble_fold_witness :
    ((0 : Int) ≤ 0) ∧ dsEeprom.crc zeroStore 7 0 = 0xFFFFFFFF :=
  ⟨by decide, (crc_eq_nibble_fold zeroStore 7 0).2 (by decide)⟩

/-! ## C17: the lookup table -/

/-- C17: every entry `crc_table[i]`, `i` in 0..15, is the value obtained from `i` by four
iterations of `c := (c >> 1) xor (0xEDB88320 if c is odd else 0)`; the table is GF(2)-linear,
`crc_table[i xor j] = crc_table[i] xor crc_table[j]`, and its 16 entries are pairwise
distinct. -/
theorem crc_table_is_crc32_nibble_table :
    crc_table.length = 16 ∧
    (∀ i : Fin 16, crc_table.getD i.val 0 = polyStep (polyStep (polyStep (polyStep i.val)))) ∧
    (∀ i j : Fin 16, crc_table.getD (i.val ^^^ j.val) 0
      = crc_table.getD i.val 0 ^^^ crc_table.getD j.val 0) ∧
    (∀ i j : Fin 16, crc_table.getD i.val 0 = crc_table.getD j.val 0 ↔ i = j) := by
  refine ⟨rfl, by decide, by decide, by decide⟩

/-! ## C18: the checksum is a function of the byte range -/

/-- C18: for any two stores that agree on every offset in `[startPos, startPos + length)`,
`crc(startPos, length)` returns the same value.  (`crc` reads no member of the manager and
writes neither the store nor a member: in the model it takes only the store and returns only
the checksum.) -/
theorem crc_depends_only_on_range (s1 s2 : Store) (startPos length : Int)
    (h : ∀ a : Int, startPos ≤ a → a < startPos + length → EEPROM.read s1 a = EEPROM.read s2 a) :
    dsEeprom.crc s1 startPos length = dsEeprom.crc s2 startPos length :=
  dsEeprom.crc_congr s1 s2 startPos length h

/-- C18 at a concrete input: the zero store and the store with a byte written at offset 0
have the same checksum over `[7, 71)`. -/
theorem crc_depends_only_on_range_witness :
    dsEeprom.crc zeroStore 7 64 = dsEeprom.crc (EEPROM.write zeroStore 0 0x7e) 7 64 :=
  crc_depends_only_on_range zeroStore (EEPROM.write zeroStore 0 0x7e) 7 64
    (fun a h1 _ => by
      have hne : a ≠ 0 := by omega
      simp [EEPROM.read, EEPROM.write, hne])

/-! ## C19: raw buffers -/

theorem setLoop_length (s : Store) (off : Int) (buf : List Byte) (n : Nat) :
    (forUpTo n (fun i d => d.set i (EEPROM.read s (off + i))) buf).length = buf.length := by
  induction n with
  | zero => rfl
  | succ k ih => rw [forUpTo_succ, List.length_set, ih]

theorem setLoop_getElem? (s : Store) (off : Int) (buf : List Byte) (n j : Nat) :
    (forUpTo n (fun i d => d.set i (EEPROM.read s (off + i))) buf)[j]?
      = if j < n ∧ j < buf.length then some (s (off + (j : Int))) else buf[j]? := by
  induction n with
  | zero => simp [forUpTo]
  | succ k ih =>
    rw [forUpTo_succ, List.getElem?_set, setLoop_length, ih]
    by_cases hkj : k = j
    · subst hkj
      by_cases hl : k < buf.length
      · simp [hl, EEPROM.read]
      · have hnone : buf[k]? = none := List.getElem?_eq_none (by omega)
        simp [hl, hnone]
    · rw [if_neg hkj]
      by_cases hj : j < k ∧ j < buf.length
      · have hj2 : j < k + 1 ∧ j < buf.length := ⟨by omega, hj.2⟩
        rw [if_pos hj, if_pos hj2]
      · have hj2 : ¬ (j < k + 1 ∧ j < buf.length) := by omega
        rw [if_neg hj, if_neg hj2]

/-- The copying loop of `restoreRaw` overwrites the first `n` bytes of the caller's buffer with
the store bytes at `off`, `off + 1`, ... and leaves the rest of the buffer. -/
theorem setLoop_eq (s : Store) (off : Int) (buf : List Byte) (n : Nat) (hn : n ≤ buf.length) :
    forUpTo n (fun i d => d.set i (EEPROM.read s (off + i))) buf
      = (List.range n).map (fun (i : Nat) => EEPROM.read s (off + (i : Int))) ++ buf.drop n := by
  apply List.ext_getElem?
  intro j
  rw [setLoop_getElem?]
  by_cases hj : j < n
  · have hj2 : j < n ∧ j < buf.length := ⟨hj, by omega⟩
    rw [if_pos hj2, List.getElem?_append_left (by simpa using hj)]
    simp [hj, EEPROM.read]
  · have hj2 : ¬ (j < n ∧ j < buf.length) := fun h => hj h.1
    rw [if_neg hj2, List.getElem?_append_right (by simp; omega)]
    simp only [List.length_map, List.length_range, List.getElem?_drop]
    congr 1
    omega

theorem dsEeprom.restoreRaw_eq (self : dsEeprom) (s : Store) (buf : List Byte)
    (off len maxLen : Int) (hst : self.status &&& EE_STATUS_INVALID_SIZE = 0)
    (hbuf : (max 0 (min len maxLen)).toNat ≤ buf.length) :
    dsEeprom.restoreRaw self s buf off len maxLen
      = (0, (List.range (max 0 (min len maxLen)).toNat).map
              (fun (i : Nat) => EEPROM.read s (off + (i : Int)))
            ++ buf.drop (max 0 (min len maxLen)).toNat) := by
  have hn : (max 0 (min len maxLen)).toNat = (min len maxLen).toNat := by omega
  rw [hn] at hbuf ⊢
  by_cases hl : len > 0
  · simp only [dsEeprom.restoreRaw, hst, ne_eq, not_true_eq_false, if_false, if_pos hl]
    rw [setLoop_eq s off buf _ hbuf]
  · have h0 : (min len maxLen).toNat = 0 := by omega
    simp only [dsEeprom.restoreRaw, hst, ne_eq, not_true_eq_false, if_false, if_neg hl]
    rw [h0]
    simp

/-- C19: on a manager whose InvalidSize flag is clear, `restoreRaw(offset, len, maxLen)`
returns success and delivers exactly `max(0, min(len, maxLen))` bytes into the caller's buffer
(which has room for them), namely the store bytes at `offset`, `offset + 1`, ... in order, and
leaves the rest of the buffer; when `len <= 0` it delivers nothing and returns success.  After
`storeRaw(data, len, offset)` a `restoreRaw(offset, len, maxLen)` with `len <= maxLen`
reproduces the `len` bytes of `data`. -/
theorem restoreRaw_delivers (self : dsEeprom) (s : Store) (data buf : List Byte)
    (off len maxLen : Int) (hst : self.status &&& EE_STATUS_INVALID_SIZE = 0)
    (hbuf : (max 0 (min len maxLen)).toNat ≤ buf.length) :
    dsEeprom.restoreRaw self s buf off len maxLen
      = (0, (List.range (max 0 (min len maxLen)).toNat).map
              (fun (i : Nat) => EEPROM.read s (off + (i : Int)))
            ++ buf.drop (max 0 (min len maxLen)).toNat) ∧
    (len ≤ 0 → dsEeprom.restoreRaw self s buf off len maxLen = (0, buf)) ∧
    (len ≤ maxLen → len.toNat ≤ data.length →
      (dsEeprom.storeRaw self s data len off).1 = 0 ∧
      dsEeprom.restoreRaw self (dsEeprom.storeRaw self s data len off).2 buf off len maxLen
        = (0, data.take len.toNat ++ buf.drop len.toNat)) := by
  refine ⟨dsEeprom.restoreRaw_eq self s buf off len maxLen hst hbuf, ?_, ?_⟩
  · intro hl
    have hl2 : ¬ (len > 0) := by omega
    simp only [dsEeprom.restoreRaw, hst, ne_eq, not_true_eq_false, if_false, if_neg hl2]
  · intro hle hdata
    have hn : (max 0 (min len maxLen)).toNat = len.toNat := by omega
    have hs : dsEeprom.storeRaw self s data len off
        = (0, forUpTo len.toNat
            (fun i st => EEPROM.write st (off + i) (data.getD i 0)) s) := by
      simp only [dsEeprom.storeRaw, hst, ne_eq, not_true_eq_false, if_false]
    rw [hs]
    refine ⟨rfl, ?_⟩
    rw [dsEeprom.restoreRaw_eq self _ buf off len maxLen hst hbuf, hn]
    congr 2
    rw [← range_map_getD_take data len.toNat hdata]
    apply List.map_congr_left
    intro i hi
    simp only [EEPROM.read]
    exact writeLoop_inside data off s len.toNat i (List.mem_range.mp hi)

/-- C19 at a concrete input: three bytes stored raw at offset 7 and read back with
`maxLen = 8` into a buffer of four bytes. -/
theorem restoreRaw_delivers_witness :
    readyMgr.status &&& EE_STATUS_INVALID_SIZE = 0 ∧
    dsEeprom.restoreRaw readyMgr (dsEeprom.storeRaw readyMgr zeroStore [1, 2, 3] 3 7).2
        [9, 9, 9, 9] 7 3 8 = (0, [1, 2, 3, 9]) :=
  ⟨by decide,
   ((restoreRaw_delivers readyMgr zeroStore [1, 2, 3] [9, 9, 9, 9] 7 3 8 (by decide)
      (by decide)).2.2 (by decide) (by decide)).2⟩

/-! ## C20: `validate` on a manager whose InvalidSize flag is set -/

set_option maxRecDepth 100000 in
/-- C20, the claim as stated fails: after `init(64, 0x7e, quiet)` and `setBlocksize(0)` the
block size is still 64 and the InvalidSize flag is set; `validate()` on the zero store then
writes the magic at offset 0 but leaves bytes 1..4 zero, which are not the bytes of the
checksum it has just computed. -/
theorem validate_flagged_skips_checksum :
    (dsEeprom.setBlocksize 4096 (dsEeprom.init 4096 readyMgr 64 0x7e 0).2 0).blockSize = 64 ∧
    EEPROM.read (dsEeprom.validate 4096
      (dsEeprom.setBlocksize 4096 (dsEeprom.init 4096 readyMgr 64 0x7e 0).2 0) zeroStore).2.2 0
      = 0x7e ∧
    (List.range 4).map (fun (i : Nat) => EEPROM.read (dsEeprom.validate 4096
      (dsEeprom.setBlocksize 4096 (dsEeprom.init 4096 readyMgr 64 0x7e 0).2 0) zeroStore).2.2
      (1 + (i : Int))) = [0, 0, 0, 0] ∧
    (List.range 4).map (fun (i : Nat) => EEPROM.read (dsEeprom.validate 4096
      (dsEeprom.setBlocksize 4096 (dsEeprom.init 4096 readyMgr 64 0x7e 0).2 0) zeroStore).2.2
      (1 + (i : Int)))
      ≠ ulongBytes (dsEeprom.validate 4096
          (dsEeprom.setBlocksize 4096 (dsEeprom.init 4096 readyMgr 64 0x7e 0).2 0)
          zeroStore).2.1.crc32Old := by
  decide

/-- C20 (amended): for every manager state whose blockSize satisfies
`0 < blockSize <= EEPROM_MAX_SIZE`, whatever status flags are set, `validate()` writes the
configured magic byte at offset 0 and keeps the freshly computed checksum in `crc32Old` and
`crc32New`; it writes that checksum into bytes 1..4 of the store when the InvalidSize flag is
clear, and when the InvalidSize flag is set it changes no byte of the store other than the one
at offset 0. -/
theorem validate_writes_magic_and_gated_checksum (MAX : Nat) (self : dsEeprom) (s : Store)
    (hb : self.blockSize > 0 ∧ self.blockSize ≤ MAX) :
    EEPROM.read (dsEeprom.validate MAX self s).2.2 0 = self.magic ∧
    (dsEeprom.validate MAX self s).2.1.crc32Old
      = dsEeprom.crc (dsEeprom.validate MAX self s).2.2 EEPROM_STD_DATA_BEGIN self.blockSize ∧
    (dsEeprom.validate MAX self s).2.1.crc32New = (dsEeprom.validate MAX self s).2.1.crc32Old ∧
    (self.status &&& EE_STATUS_INVALID_SIZE = 0 →
      (List.range 4).map (fun (i : Nat) =>
          EEPROM.read (dsEeprom.validate MAX self s).2.2 (1 + (i : Int)))
        = ulongBytes (dsEeprom.validate MAX self s).2.1.crc32Old) ∧
    (self.status &&& EE_STATUS_INVALID_SIZE ≠ 0 →
      ∀ a : Int, a ≠ 0 → (dsEeprom.validate MAX self s).2.2 a = s a) := by
  by_cases hst : self.status &&& EE_STATUS_INVALID_SIZE = 0
  · rw [dsEeprom.validate_eq MAX self s hb hst]
    have hcs := fun (i : Nat) (hi : i < 4) => headerWrite_checksum s self.magic
      (ulongBytes (dsEeprom.crc (EEPROM.write s EEPROM_POS_MAGIC self.magic)
        EEPROM_STD_DATA_BEGIN self.blockSize)) i hi
    have hcrc := (crc_headerWrite s self.magic
      (ulongBytes (dsEeprom.crc (EEPROM.write s EEPROM_POS_MAGIC self.magic)
        EEPROM_STD_DATA_BEGIN self.blockSize)) self.blockSize).trans
      (crc_magicWrite s self.magic self.blockSize).symm
    refine ⟨headerWrite_magic s self.magic
      (ulongBytes (dsEeprom.crc (EEPROM.write s EEPROM_POS_MAGIC self.magic)
        EEPROM_STD_DATA_BEGIN self.blockSize)), hcrc.symm, rfl, ?_, fun h => absurd hst h⟩
    intro _
    have e0 := hcs 0 (by decide)
    have e1 := hcs 1 (by decide)
    have e2 := hcs 2 (by decide)
    have e3 := hcs 3 (by decide)
    simp only [List.range, List.range.loop, List.map, EEPROM.read]
    rw [e0, e1, e2, e3]
    rfl
  · rw [dsEeprom.validate_eq_gated MAX self s hb hst]
    refine ⟨EEPROM.read_write_same s 0 self.magic, ?_, rfl, fun h => absurd h hst, ?_⟩
    · simp only
    · intro _ a ha
      have hne : a ≠ EEPROM_POS_MAGIC := ha
      simp [EEPROM.write, hne]

/-- C20 (amended) at a concrete input: the flagged manager reached by `init(64, 0x7e, quiet)`
and `setBlocksize(0)`, on the zero store. -/
theorem validate_writes_magic_and_gated_checksum_witness :
    ((dsEeprom.setBlocksize 4096 (dsEeprom.init 4096 readyMgr 64 0x7e 0).2 0).blockSize > 0 ∧
     (dsEeprom.setBlocksize 4096 (dsEeprom.init 4096 readyMgr 64 0x7e 0).2 0).blockSize
       ≤ (4096 : Nat)) ∧
    EEPROM.read (dsEeprom.validate 4096
      (dsEeprom.setBlocksize 4096 (dsEeprom.init 4096 readyMgr 64 0x7e 0).2 0) zeroStore).2.2 0
      = (dsEeprom.setBlocksize 4096 (dsEeprom.init 4096 readyMgr 64 0x7e 0).2 0).magic :=
  ⟨by decide,
   (validate_writes_magic_and_gated_checksum 4096
      (dsEeprom.setBlocksize 4096 (dsEeprom.init 4096 readyMgr 64 0x7e 0).2 0) zeroStore
      (by decide)).1⟩

/-! ## C15: every single-bit change inside the range changes the checksum -/

theorem nat_shiftRight_xor (a b k : Nat) : (a ^^^ b) >>> k = (a >>> k) ^^^ (b >>> k) := by
  apply Nat.eq_of_testBit_eq
  intro i
  simp [Nat.testBit_xor, Nat.testBit_shiftRight]

theorem nat_shiftLeft_xor (a b k : Nat) : (a ^^^ b) <<< k = (a <<< k) ^^^ (b <<< k) := by
  apply Nat.eq_of_testBit_eq
  intro i
  simp only [Nat.testBit_xor, Nat.testBit_shiftLeft]
  by_cases h : k ≤ i <;> simp [h]

theorem nat_split_nibble (d : Nat) : d = (d &&& 15) ^^^ ((d >>> 4) <<< 4) := by
  apply Nat.eq_of_testBit_eq
  intro i
  have h15 : (15 : Nat) = 2 ^ 4 - 1 := by decide
  simp only [Nat.testBit_xor, Nat.testBit_and, Nat.testBit_shiftLeft, Nat.testBit_shiftRight]
  rw [h15, Nat.testBit_two_pow_sub_one]
  by_cases h : i < 4
  · have h2 : ¬ (4 ≤ i) := by omega
    simp [h, h2]
  · have h2 : 4 ≤ i := by omega
    have h3 : 4 + (i - 4) = i := by omega
    simp [h, h2, h3]

theorem xor_xor_xor_comm (a b c d : Nat) : (a ^^^ b) ^^^ (c ^^^ d) = (a ^^^ c) ^^^ (b ^^^ d) := by
  rw [Nat.xor_assoc, Nat.xor_assoc, ← Nat.xor_assoc b c d, Nat.xor_comm b c, Nat.xor_assoc c b d]

/-- A 16-entry table that is additive on its indices is additive on the low nibbles of any two
numbers. -/
theorem lookup_xor (tab : List Nat)
    (h : ∀ i j : Fin 16, tab.getD (i.val ^^^ j.val) 0 = tab.getD i.val 0 ^^^ tab.getD j.val 0)
    (a b : Nat) :
    tab.getD ((a ^^^ b) &&& 15) 0 = tab.getD (a &&& 15) 0 ^^^ tab.getD (b &&& 15) 0 := by
  have ha : a &&& 15 < 16 := Nat.and_lt_two_pow a (n := 4) (by decide)
  have hb : b &&& 15 < 16 := Nat.and_lt_two_pow b (n := 4) (by decide)
  rw [Nat.and_xor_distrib_right]
  exact h ⟨a &&& 15, ha⟩ ⟨b &&& 15, hb⟩

theorem crc_table_xor (a b : Nat) :
    crc_table.getD ((a ^^^ b) &&& 15) 0
      = crc_table.getD (a &&& 15) 0 ^^^ crc_table.getD (b &&& 15) 0 :=
  lookup_xor crc_table (by decide) a b

theorem crcLin_xor_first (a a' b b' : Nat) :
    crc_table.getD ((a ^^^ a' ^^^ (b ^^^ b')) &&& 15) 0 ^^^ ((a ^^^ a') >>> 4)
      = (crc_table.getD ((a ^^^ b) &&& 15) 0 ^^^ (a >>> 4))
        ^^^ (crc_table.getD ((a' ^^^ b') &&& 15) 0 ^^^ (a' >>> 4)) := by
  rw [xor_xor_xor_comm a a' b b', crc_table_xor (a ^^^ b) (a' ^^^ b'),
    nat_shiftRight_xor a a' 4, xor_xor_xor_comm]

theorem crcLin_xor_second (c c' b b' : Nat) :
    crc_table.getD (((c ^^^ c' ^^^ (b ^^^ b')) >>> 4) &&& 15) 0 ^^^ ((c ^^^ c') >>> 4)
      = (crc_table.getD (((c ^^^ b) >>> 4) &&& 15) 0 ^^^ (c >>> 4))
        ^^^ (crc_table.getD (((c' ^^^ b') >>> 4) &&& 15) 0 ^^^ (c' >>> 4)) := by
  rw [xor_xor_xor_comm c c' b b', nat_shiftRight_xor (c ^^^ b) (c' ^^^ b') 4,
    crc_table_xor ((c ^^^ b) >>> 4) ((c' ^^^ b') >>> 4), nat_shiftRight_xor c c' 4,
    xor_xor_xor_comm]

theorem crcLin_xor (a a' b b' : Nat) :
    crcLin (a ^^^ a') (b ^^^ b') = crcLin a b ^^^ crcLin a' b' := by
  simp only [crcLin]
  rw [crcLin_xor_first a a' b b', crcLin_xor_second]

theorem crc_table_lt (i : Nat) : crc_table.getD i 0 < 4294967296 := by
  by_cases h : i < 16
  · have hall : ∀ j : Fin 16, crc_table.getD j.val 0 < 4294967296 := by decide
    exact hall ⟨i, h⟩
  · rw [List.getD_eq_default _ _ (by simp [crc_table]; omega)]
    decide

theorem crcLin_lt (c b : Nat) (hc : c < 4294967296) : crcLin c b < 4294967296 := by
  have h32 : (4294967296 : Nat) = 2 ^ 32 := by decide
  have hs : ∀ x : Nat, x < 2 ^ 32 → x >>> 4 < 2 ^ 32 := by
    intro x hx
    rw [Nat.shiftRight_eq_div_pow]
    exact Nat.lt_of_le_of_lt (Nat.div_le_self _ _) hx
  simp only [crcLin]
  rw [h32] at hc ⊢
  have h1 : crc_table.getD ((c ^^^ b) &&& 15) 0 ^^^ (c >>> 4) < 2 ^ 32 :=
    Nat.xor_lt_two_pow (by rw [← h32]; exact crc_table_lt _) (hs c hc)
  exact Nat.xor_lt_two_pow (by rw [← h32]; exact crc_table_lt _) (hs _ h1)

theorem not32_lt (x : Nat) : not32 x < 4294967296 := by
  have h32 : (4294967296 : Nat) = 2 ^ 32 := by decide
  unfold not32
  rw [h32]
  exact Nat.xor_lt_two_pow (Nat.mod_lt _ (by decide)) (by decide)

theorem not32_xor_not32 (u v : Nat) (hu : u < 4294967296) (hv : v < 4294967296) :
    not32 u ^^^ not32 v = u ^^^ v := by
  unfold not32
  rw [Nat.mod_eq_of_lt hu, Nat.mod_eq_of_lt hv, xor_xor_xor_comm, Nat.xor_self, Nat.xor_zero]

theorem crcStep_eq (c : Nat) (b : Byte) : dsEeprom.crcStep c b = not32 (crcLin c b.val) := rfl

theorem crcStep_lt (c : Nat) (b : Byte) : dsEeprom.crcStep c b < 4294967296 :=
  not32_lt _

theorem crcStep_xor (a a' : Nat) (b b' : Byte) (ha : a < 4294967296) (ha' : a' < 4294967296) :
    dsEeprom.crcStep a b ^^^ dsEeprom.crcStep a' b'
      = crcLin (a ^^^ a') (b.val ^^^ b'.val) := by
  rw [crcStep_eq, crcStep_eq, not32_xor_not32 _ _ (crcLin_lt a _ ha) (crcLin_lt a' _ ha'),
    crcLin_xor]

/-! ### A signature of accumulator differences that no further byte can cancel -/

theorem crcSig_xor (a b : Nat) : crcSig (a ^^^ b) = crcSig a ^^^ crcSig b := by
  simp only [crcSig]
  rw [nat_shiftRight_xor a b 8, nat_shiftRight_xor a b 16, nat_shiftRight_xor a b 24,
    lookup_xor sigTab0 (by decide) a b, lookup_xor sigTab2 (by decide) (a >>> 8) (b >>> 8),
    lookup_xor sigTab4 (by decide) (a >>> 16) (b >>> 16), Nat.and_xor_distrib_right]
  rw [xor_xor_xor_comm (sigTab0.getD (a &&& 15) 0), xor_xor_xor_comm _ _
    (sigTab4.getD (a >>> 16 &&& 15) 0), xor_xor_xor_comm _ _ (a >>> 24 &&& 15)]

theorem crcSig_lt (x : Nat) : crcSig x < 16 := by
  have h0 : ∀ i : Fin 16, sigTab0.getD i.val 0 < 2 ^ 4 := by decide
  have h2 : ∀ i : Fin 16, sigTab2.getD i.val 0 < 2 ^ 4 := by decide
  have h4 : ∀ i : Fin 16, sigTab4.getD i.val 0 < 2 ^ 4 := by decide
  have hn : ∀ y : Nat, y &&& 15 < 16 := fun y => Nat.and_lt_two_pow y (n := 4) (by decide)
  have h16 : (16 : Nat) = 2 ^ 4 := by decide
  simp only [crcSig]
  rw [h16]
  exact Nat.xor_lt_two_pow (Nat.xor_lt_two_pow (Nat.xor_lt_two_pow (h0 ⟨_, hn x⟩)
    (h2 ⟨_, hn _⟩)) (h4 ⟨_, hn _⟩)) (by rw [← h16]; exact hn _)

/-- Two additive functions that agree on every nibble value at every nibble position agree on
all 32-bit numbers. -/
theorem additive_ext (f g : Nat → Nat)
    (hf : ∀ a b, f (a ^^^ b) = f a ^^^ f b) (hg : ∀ a b, g (a ^^^ b) = g a ^^^ g b)
    (hbasis : ∀ k : Fin 8, ∀ n : Fin 16, f (n.val <<< (4 * k.val)) = g (n.val <<< (4 * k.val)))
    (d : Nat) (hd : d < 2 ^ 32) : f d = g d := by
  have hf0 : f 0 = 0 := by
    have h := hf 0 0
    rw [Nat.xor_self] at h
    rw [h, Nat.xor_self]
  have hg0 : g 0 = 0 := by
    have h := hg 0 0
    rw [Nat.xor_self] at h
    rw [h, Nat.xor_self]
  have key : ∀ m j : Nat, j + m ≤ 8 → ∀ x : Nat, x < 2 ^ (4 * m) →
      f (x <<< (4 * j)) = g (x <<< (4 * j)) := by
    intro m
    induction m with
    | zero =>
      intro j _ x hx
      have hx0 : x = 0 := by simpa using hx
      subst hx0
      rw [Nat.zero_shiftLeft, hf0, hg0]
    | succ m ih =>
      intro j hj x hx
      have hsplit := nat_split_nibble x
      have hlow : x &&& 15 < 16 := Nat.and_lt_two_pow x (n := 4) (by decide)
      have hhigh : x >>> 4 < 2 ^ (4 * m) := by
        rw [Nat.shiftRight_eq_div_pow]
        apply Nat.div_lt_of_lt_mul
        have e : 2 ^ 4 * 2 ^ (4 * m) = 2 ^ (4 * (m + 1)) := by
          rw [← Nat.pow_add]; congr 1; omega
        rw [e]; exact hx
      have e1 : x <<< (4 * j)
          = ((x &&& 15) <<< (4 * j)) ^^^ ((x >>> 4) <<< (4 * (j + 1))) := by
        conv_lhs => rw [hsplit]
        rw [nat_shiftLeft_xor, ← Nat.shiftLeft_add]
        congr 2
        omega
      rw [e1, hf, hg, hbasis ⟨j, by omega⟩ ⟨x &&& 15, hlow⟩, ih (j + 1) (by omega) _ hhigh]
  have h := key 8 0 (by omega) d (by simpa using hd)
  simpa using h

theorem crcSig_crcLin (d : Nat) (hd : d < 4294967296) :
    crcSig (crcLin d 0) = sigTab4.getD (crcSig d) 0 := by
  apply additive_ext (fun x => crcSig (crcLin x 0)) (fun x => sigTab4.getD (crcSig x) 0)
  · intro a b
    have h := crcLin_xor a b 0 0
    rw [Nat.xor_self] at h
    show crcSig (crcLin (a ^^^ b) 0) = crcSig (crcLin a 0) ^^^ crcSig (crcLin b 0)
    rw [h, crcSig_xor]
  · intro a b
    have hadd : ∀ i j : Fin 16, sigTab4.getD (i.val ^^^ j.val) 0
        = sigTab4.getD i.val 0 ^^^ sigTab4.getD j.val 0 := by decide
    show sigTab4.getD (crcSig (a ^^^ b)) 0
      = sigTab4.getD (crcSig a) 0 ^^^ sigTab4.getD (crcSig b) 0
    rw [crcSig_xor]
    exact hadd ⟨crcSig a, crcSig_lt a⟩ ⟨crcSig b, crcSig_lt b⟩
  · decide
  · exact hd

theorem crcSig_ne_zero_step (d : Nat) (hd : d < 4294967296) (hs : crcSig d ≠ 0) :
    crcSig (crcLin d 0) ≠ 0 := by
  rw [crcSig_crcLin d hd]
  have hperm : ∀ v : Fin 16, sigTab4.getD v.val 0 = 0 → v.val = 0 := by decide
  intro h
  exact hs (hperm ⟨crcSig d, crcSig_lt d⟩ h)

theorem crcSig_flip_ne_zero (i : Nat) (hi : i < 8) : crcSig (crcLin 0 (2 ^ i)) ≠ 0 := by
  have hall : ∀ k : Fin 8, crcSig (crcLin 0 (2 ^ k.val)) ≠ 0 := by decide
  exact hall ⟨i, hi⟩

theorem flipBit_xor (b : Byte) (i : Nat) (hi : i < 8) : (flipBit b i).val ^^^ b.val = 2 ^ i := by
  have h256 : (256 : Nat) = 2 ^ 8 := by decide
  have hb : b.val < 2 ^ 8 := by rw [← h256]; exact b.isLt
  have hp : 2 ^ i < 2 ^ 8 := Nat.pow_lt_pow_right (by decide) hi
  have hlt : b.val ^^^ 2 ^ i < 256 := Nat.xor_lt_two_pow hb hp
  simp only [flipBit]
  rw [Nat.mod_eq_of_lt hlt, Nat.xor_comm (b.val) (2 ^ i), Nat.xor_cancel_right]

/-- The accumulator of `crc` after `n` bytes is a 32-bit value. -/
theorem crcLoop_lt (s : Store) (startPos : Int) (n : Nat) :
    forUpTo n (fun k acc => dsEeprom.crcStep acc (EEPROM.read s (startPos + k))) 0xFFFFFFFF
      < 4294967296 := by
  cases n with
  | zero => show (4294967295 : Nat) < 4294967296; decide
  | succ k => rw [forUpTo_succ]; exact crcStep_lt _ _

/-- Up to the changed byte the two accumulators are equal. -/
theorem crcLoop_before (s : Store) (startPos : Int) (j : Nat) (v : Byte) (n : Nat)
    (hn : n ≤ j) :
    forUpTo n (fun k acc => dsEeprom.crcStep acc
        (EEPROM.read (EEPROM.write s (startPos + j) v) (startPos + k))) 0xFFFFFFFF
      = forUpTo n (fun k acc => dsEeprom.crcStep acc (EEPROM.read s (startPos + k)))
          0xFFFFFFFF := by
  induction n with
  | zero => rw [forUpTo_zero, forUpTo_zero]
  | succ k ih =>
    rw [forUpTo_succ, forUpTo_succ, ih (by omega)]
    have hne : startPos + (k : Int) ≠ startPos + (j : Int) := by omega
    simp [EEPROM.read, EEPROM.write, hne]

/-- From the changed byte on, the difference of the two accumulators has a non-zero
signature. -/
theorem crcLoop_after (s : Store) (startPos : Int) (j i : Nat) (hi : i < 8) (k : Nat) :
    crcSig
      (forUpTo (j + 1 + k) (fun k acc => dsEeprom.crcStep acc
          (EEPROM.read (EEPROM.write s (startPos + j)
            (flipBit (EEPROM.read s (startPos + j)) i)) (startPos + k))) 0xFFFFFFFF
        ^^^ forUpTo (j + 1 + k) (fun k acc => dsEeprom.crcStep acc
          (EEPROM.read s (startPos + k))) 0xFFFFFFFF) ≠ 0 := by
  induction k with
  | zero =>
    rw [Nat.add_zero, forUpTo_succ, forUpTo_succ, crcLoop_before s startPos j _ j (le_refl _),
      crcStep_xor _ _ _ _ (crcLoop_lt s startPos j) (crcLoop_lt s startPos j), Nat.xor_self]
    have hr : EEPROM.read (EEPROM.write s (startPos + j)
        (flipBit (EEPROM.read s (startPos + j)) i)) (startPos + j)
        = flipBit (EEPROM.read s (startPos + j)) i := EEPROM.read_write_same _ _ _
    rw [hr, flipBit_xor _ i hi]
    exact crcSig_flip_ne_zero i hi
  | succ k ih =>
    rw [← Nat.add_assoc, forUpTo_succ, forUpTo_succ]
    have hne : startPos + ((j + 1 + k : Nat) : Int) ≠ startPos + (j : Int) := by omega
    have hr : EEPROM.read (EEPROM.write s (startPos + j)
        (flipBit (EEPROM.read s (startPos + j)) i)) (startPos + ((j + 1 + k : Nat) : Int))
        = EEPROM.read s (startPos + ((j + 1 + k : Nat) : Int)) :=
      EEPROM.read_write_ne _ _ _ _ hne
    rw [hr, crcStep_xor _ _ _ _ (crcLoop_lt _ startPos _) (crcLoop_lt s startPos _),
      Nat.xor_self]
    have h32 : (4294967296 : Nat) = 2 ^ 32 := by decide
    exact crcSig_ne_zero_step _
      (by rw [h32]; exact Nat.xor_lt_two_pow (by rw [← h32]; exact crcLoop_lt _ startPos _)
            (by rw [← h32]; exact crcLoop_lt s startPos _)) ih

/-- C15: for every store, every start position and every length, and every single bit `i` of
every byte at an offset `startPos + j` inside the range `[startPos, startPos + length)`
(so `length >= 1`): flipping that one bit changes the 32-bit value returned by
`crc(startPos, length)`, wherever in the range the flipped byte lies and however many bytes
follow it. -/
theorem crc_detects_single_bit_flip (s : Store) (startPos length : Int) (j i : Nat)
    (hj : (j : Int) < length) (hi : i < 8) :
    dsEeprom.crc (EEPROM.write s (startPos + j) (flipBit (EEPROM.read s (startPos + j)) i))
        startPos length
      ≠ dsEeprom.crc s startPos length := by
  obtain ⟨k, hk⟩ : ∃ k : Nat, length.toNat = j + 1 + k := ⟨length.toNat - (j + 1), by omega⟩
  unfold dsEeprom.crc
  rw [hk]
  intro heq
  have h := crcLoop_after s startPos j i hi k
  rw [heq, Nat.xor_self] at h
  exact h (by decide)

/-- C15 at a concrete input: flipping bit 0 of the first byte of the range `[7, 71)` of the
zero store changes the checksum. -/
theorem crc_detects_single_bit_flip_witness :
    (((0 : Nat) : Int) < 64 ∧ 0 < 8) ∧
    dsEeprom.crc (EEPROM.write zeroStore (7 + ((0 : Nat) : Int))
        (flipBit (EEPROM.read zeroStore (7 + ((0 : Nat) : Int))) 0)) 7 64
      ≠ dsEeprom.crc zeroStore 7 64 :=
  ⟨by decide, crc_detects_single_bit_flip zeroStore 7 64 0 0 (by decide) (by decide)⟩

/-! ## C21: the status invariant of reachable manager states -/

/-- Setting the InvalidSize flag keeps the status among 16 and 24 and establishes the
invariant whatever the block size is. -/
theorem statusInv_set_flag (MAX : Nat) (m : dsEeprom)
    (h : m.status = 0 ∨ m.status = 8 ∨ m.status = 16 ∨ m.status = 24) :
    statusInv MAX { m with status := m.status ||| EE_STATUS_INVALID_SIZE } := by
  have hv : m.status ||| EE_STATUS_INVALID_SIZE = 16 ∨ m.status ||| EE_STATUS_INVALID_SIZE = 24 := by
    rcases h with h | h | h | h <;> rw [h] <;> decide
  refine ⟨?_, ?_⟩
  · rcases hv with hv | hv
    · exact Or.inr (Or.inr (Or.inl hv))
    · exact Or.inr (Or.inr (Or.inr hv))
  · intro hc
    exact absurd hc (invalidSize_set m.status)

theorem statusInv_flagged (MAX : Nat) (m : dsEeprom) (h : m.status = 16 ∨ m.status = 24) :
    statusInv MAX m := by
  refine ⟨?_, ?_⟩
  · rcases h with h | h
    · exact Or.inr (Or.inr (Or.inl h))
    · exact Or.inr (Or.inr (Or.inr h))
  · intro hc
    rcases h with h | h <;> rw [h] at hc <;> exact absurd hc (by decide)

theorem statusInv_clear (MAX : Nat) (m : dsEeprom) (h : m.status = 0 ∨ m.status = 8)
    (hb : 0 < m.blockSize ∧ m.blockSize ≤ MAX) : statusInv MAX m := by
  refine ⟨?_, fun _ => hb⟩
  rcases h with h | h
  · exact Or.inl h
  · exact Or.inr (Or.inl h)

theorem statusInv_ctor (MAX : Nat) (prior : dsEeprom) (newBlockSize : Nat) (newMagic : Byte)
    (newLogLevel : Int) :
    statusInv MAX (dsEeprom.ctor MAX prior newBlockSize newMagic newLogLevel) := by
  by_cases hs : newBlockSize ≤ 0 ∨ newBlockSize > MAX
  · by_cases hm : prior.magic = 0x00
    · simp only [dsEeprom.ctor, if_pos hs, if_pos hm]
      exact statusInv_flagged MAX _ (Or.inr rfl)
    · simp only [dsEeprom.ctor, if_pos hs, if_neg hm]
      exact statusInv_flagged MAX _ (Or.inl rfl)
  · have hb : 0 < (newBlockSize : Int) ∧ (newBlockSize : Int) ≤ MAX := by omega
    by_cases hm : prior.magic = 0x00
    · simp only [dsEeprom.ctor, if_neg hs, if_pos hm]
      exact statusInv_clear MAX _ (Or.inr rfl) hb
    · simp only [dsEeprom.ctor, if_neg hs, if_neg hm]
      exact statusInv_clear MAX _ (Or.inl rfl) hb

theorem statusInv_init (MAX : Nat) (m : dsEeprom) (newBlockSize : Nat) (newMagic : Byte)
    (newLogLevel : Int) :
    statusInv MAX (dsEeprom.init MAX m newBlockSize newMagic newLogLevel).2 := by
  by_cases hs : newBlockSize ≤ 0 ∨ newBlockSize > MAX
  · by_cases hm : newMagic = 0x00
    · simp only [dsEeprom.init, if_pos hs, if_pos hm]
      exact statusInv_flagged MAX _ (Or.inr rfl)
    · simp only [dsEeprom.init, if_pos hs, if_neg hm]
      exact statusInv_flagged MAX _ (Or.inl rfl)
  · have hb : 0 < (newBlockSize : Int) ∧ (newBlockSize : Int) ≤ MAX := by omega
    by_cases hm : newMagic = 0x00
    · simp only [dsEeprom.init, if_neg hs, if_pos hm]
      exact statusInv_clear MAX _ (Or.inr rfl) hb
    · simp only [dsEeprom.init, if_neg hs, if_neg hm]
      exact statusInv_clear MAX _ (Or.inl rfl) hb

theorem statusInv_apply (MAX : Nat) (m : dsEeprom) (op : MgrOp) (h : statusInv MAX m) :
    statusInv MAX (MgrOp.apply MAX m op) := by
  cases op with
  | init bs mg ll => exact statusInv_init MAX m bs mg ll
  | setBlocksize n =>
    by_cases hn : n > 0 ∧ n ≤ MAX
    · simp only [MgrOp.apply, dsEeprom.setBlocksize, if_pos hn]
      exact ⟨h.1, fun _ => by constructor <;> simp <;> omega⟩
    · simp only [MgrOp.apply, dsEeprom.setBlocksize, if_neg hn]
      exact statusInv_set_flag MAX m h.1
  | setMagic v =>
    by_cases hv : v ≠ 0x00
    · simp only [MgrOp.apply, dsEeprom.setMagic, if_pos hv]
      exact h
    · simp only [MgrOp.apply, dsEeprom.setMagic, if_neg hv]
      exact h
  | wipe s =>
    by_cases hb : m.blockSize > 0 ∧ m.blockSize ≤ MAX
    · simp only [MgrOp.apply, dsEeprom.wipe, if_pos hb]
      exact h
    · simp only [MgrOp.apply, dsEeprom.wipe, if_neg hb]
      exact statusInv_set_flag MAX m h.1
  | validate s =>
    by_cases hb : m.blockSize > 0 ∧ m.blockSize ≤ MAX
    · simp only [MgrOp.apply, dsEeprom.validate, if_pos hb]
      exact h
    · simp only [MgrOp.apply, dsEeprom.validate, if_neg hb]
      exact statusInv_set_flag MAX m h.1
  | isValid s =>
    by_cases hc : m.magic = 0 ∨ EEPROM.read s EEPROM_POS_MAGIC ≠ m.magic
    · simp only [MgrOp.apply, dsEeprom.isValid, if_pos hc]
      exact h
    · simp only [MgrOp.apply, dsEeprom.isValid, if_neg hc]
      exact h

theorem statusInv_runOps (MAX : Nat) (ops : List MgrOp) (m : dsEeprom) (h : statusInv MAX m) :
    statusInv MAX (runOps MAX m ops) := by
  induction ops generalizing m with
  | nil => exact h
  | cons op rest ih => exact ih (MgrOp.apply MAX m op) (statusInv_apply MAX m op h)

/-- C21: in every manager state reached from the constructor (whatever the members held
before it) by any sequence of `init`, `setBlocksize`, `setMagic`, `wipe`, `validate` and
`isValid` calls, with arbitrary store contents at each call (so with any field operations in
between): if the InvalidSize flag is clear then `0 < blockSize <= EEPROM_MAX_SIZE`, so that
`validate()` and `wipe()` take their in-bounds branch and leave the status as it is; and the
status contains no bit other than InvalidSize and InvalidMagic. -/
theorem reachable_status_invariant (MAX : Nat) (prior : dsEeprom) (newBlockSize : Nat)
    (newMagic : Byte) (newLogLevel : Int) (ops : List MgrOp) (s : Store) :
    ((runOps MAX (dsEeprom.ctor MAX prior newBlockSize newMagic newLogLevel) ops).status
        &&& EE_STATUS_INVALID_SIZE = 0 →
      (0 < (runOps MAX (dsEeprom.ctor MAX prior newBlockSize newMagic newLogLevel) ops).blockSize ∧
       (runOps MAX (dsEeprom.ctor MAX prior newBlockSize newMagic newLogLevel) ops).blockSize
         ≤ MAX) ∧
      (dsEeprom.validate MAX
        (runOps MAX (dsEeprom.ctor MAX prior newBlockSize newMagic newLogLevel) ops) s).2.1.status
        = (runOps MAX (dsEeprom.ctor MAX prior newBlockSize newMagic newLogLevel) ops).status ∧
      (dsEeprom.wipe MAX
        (runOps MAX (dsEeprom.ctor MAX prior newBlockSize newMagic newLogLevel) ops) s).1.status
        = (runOps MAX (dsEeprom.ctor MAX prior newBlockSize newMagic newLogLevel) ops).status) ∧
    (runOps MAX (dsEeprom.ctor MAX prior newBlockSize newMagic newLogLevel) ops).status
        &&& (EE_STATUS_INVALID_SIZE ||| EE_STATUS_INVALID_MAGIC)
      = (runOps MAX (dsEeprom.ctor MAX prior newBlockSize newMagic newLogLevel) ops).status := by
  have hinv := statusInv_runOps MAX ops _
    (statusInv_ctor MAX prior newBlockSize newMagic newLogLevel)
  generalize runOps MAX (dsEeprom.ctor MAX prior newBlockSize newMagic newLogLevel) ops = m
    at hinv ⊢
  constructor
  · intro hc
    have hb := hinv.2 hc
    have hb2 : m.blockSize > 0 ∧ m.blockSize ≤ MAX := hb
    refine ⟨hb, ?_, ?_⟩
    · simp only [dsEeprom.validate, if_pos hb2]
    · simp only [dsEeprom.wipe, if_pos hb2]
  · rcases hinv.1 with h | h | h | h <;> rw [h] <;> decide

/-- C21 at a concrete input: constructed with an invalid size, then `init(64, 0x7e, quiet)`,
`wipe()` and `setMagic(5)`: the InvalidSize flag is clear and the block size is 64. -/
theorem reachable_status_invariant_witness :
    (runOps 4096 (dsEeprom.ctor 4096 readyMgr 0 0x7e 0)
        [MgrOp.init 64 0x7e 0, MgrOp.wipe zeroStore, MgrOp.setMagic 5]).status
      &&& EE_STATUS_INVALID_SIZE = 0 ∧
    0 < (runOps 4096 (dsEeprom.ctor 4096 readyMgr 0 0x7e 0)
        [MgrOp.init 64 0x7e 0, MgrOp.wipe zeroStore, MgrOp.setMagic 5]).blockSize ∧
    (runOps 4096 (dsEeprom.ctor 4096 readyMgr 0 0x7e 0)
        [MgrOp.init 64 0x7e 0, MgrOp.wipe zeroStore, MgrOp.setMagic 5]).blockSize
      ≤ (4096 : Nat) :=
  ⟨by decide,
   ((reachable_status_invariant 4096 readyMgr 0 0x7e 0
      [MgrOp.init 64 0x7e 0, MgrOp.wipe zeroStore, MgrOp.setMagic 5] zeroStore).1
      (by decide)).1⟩

/-! ## C22: the magic test of the constructor -/

/-- C22, the code at the failing input: on an object whose `magic` member holds 0 before
construction (a zero-initialised global object), the constructor called with
`(64, 0x7e, quiet)` sets InvalidMagic and leaves the magic 0, whereas `init` with the same
arguments returns status 0 and stores the magic 0x7e; and on an object whose `magic` member
holds 0x7e, the constructor called with the magic 0 stores 0 and sets no flag, whereas `init`
sets InvalidMagic and keeps 0x7e. -/
theorem ctor_tests_member_magic :
    (dsEeprom.ctor 4096 { readyMgr with magic := 0 } 64 0x7e 0).status
      = EE_STATUS_INVALID_MAGIC ∧
    (dsEeprom.ctor 4096 { readyMgr with magic := 0 } 64 0x7e 0).magic = 0 ∧
    (dsEeprom.init 4096 { readyMgr with magic := 0 } 64 0x7e 0).2.status = 0 ∧
    (dsEeprom.init 4096 { readyMgr with magic := 0 } 64 0x7e 0).2.magic = 0x7e ∧
    (dsEeprom.ctor 4096 readyMgr 64 0 0).status = 0 ∧
    (dsEeprom.ctor 4096 readyMgr 64 0 0).magic = 0 ∧
    (dsEeprom.init 4096 readyMgr 64 0 0).2.status = EE_STATUS_INVALID_MAGIC ∧
    (dsEeprom.init 4096 readyMgr 64 0 0).2.magic = 0x7e := by
  decide

/-! ## C23: a field write touches only its own field -/

/-- C23: on a manager whose InvalidSize flag is clear, for every store, offset and buffer with
length `L >= 0`: `storeBytes(data, L, off)` leaves every store byte at an offset outside
`[off, off + 2 + L)` unchanged, `storeBoolean(b, off)` leaves every byte outside
`[off, off + 3)` unchanged, and `storeFieldLength` leaves every byte other than those at `off`
and `off + 1` unchanged.  (None of the three assigns a member of the manager; in the model they
return only the result code and the store.) -/
theorem field_write_frame (self : dsEeprom) (s : Store) (data : List Byte) (len2 : Byte × Byte)
    (len off a : Int) (hst : self.status &&& EE_STATUS_INVALID_SIZE = 0) (hlen : 0 ≤ len) :
    ((a < off ∨ off + 2 + len ≤ a) → (dsEeprom.storeBytes self s data len off).2 a = s a) ∧
    ((a < off ∨ off + 3 ≤ a) → (dsEeprom.storeBoolean self s data off).2 a = s a) ∧
    ((a ≠ off ∧ a ≠ off + 1) → (dsEeprom.storeFieldLength self s len2 off).2 a = s a) := by
  refine ⟨?_, ?_, ?_⟩
  · intro ha
    apply dsEeprom.storeBytes_frame self s data len off hst a
    have h2 : EEPROM_LEADING_LENGTH = 2 := rfl
    omega
  · intro ha
    rw [dsEeprom.storeBoolean_eq self s data off hst]
    have h0 : a ≠ off := by omega
    have h1 : a ≠ off + 1 := by omega
    have h2 : a ≠ off + 2 := by omega
    simp [EEPROM.write, h0, h1, h2]
  · intro ha
    simp [dsEeprom.storeFieldLength, hst, EEPROM.write, ha.1, ha.2]

/-- C23 at a concrete input: three bytes stored at offset 7 of the zero store leave the byte at
offset 12 (the first one after the field) as it was. -/
theorem field_write_frame_witness :
    readyMgr.status &&& EE_STATUS_INVALID_SIZE = 0 ∧
    (dsEeprom.storeBytes readyMgr zeroStore [1, 2, 3] 3 7).2 12 = zeroStore 12 :=
  ⟨by decide,
   (field_write_frame readyMgr zeroStore [1, 2, 3] (0, 0) 3 7 12 (by decide) (by decide)).1
     (by decide)⟩
